import Mathlib

/-!
Verification of the process-discovery and credential-extraction core of the
`antigravity-status` extension (sources: `src/processHunter.ts`,
`src/credentialManager.ts`).

The TypeScript is embedded shallowly:

* JavaScript 32-bit bitwise operators (`|`, `&`, `<<`, `>>`) are modelled on
  `Int`/`Nat` with an explicit reduction to the signed 32-bit range, exactly
  as ECMAScript's `ToInt32`/`ToUint32` prescribe.
* Byte buffers (`Buffer`) are `List Nat` (each element `0..255` in real runs;
  the definitions are total over arbitrary `Nat` entries).
* Stateful code (file-system effects, child processes, HTTPS probes, sqlite
  queries) is modelled by explicit environment records whose fields give the
  outcome of each external interaction; exceptions become `Except Unit`.
* Fallible pure code returns `Option`.
-/

/-- ECMAScript `ToUint32`: reduce an integer to its unsigned 32-bit residue. -/
def toUInt32 (i : Int) : Nat :=
  (i % 4294967296).toNat

/-- Reinterpret an unsigned 32-bit residue as a signed 32-bit integer
(two's complement), as ECMAScript `ToInt32` does. -/
def toInt32ofU (u : Nat) : Int :=
  if u % 4294967296 < 2147483648 then ((u % 4294967296 : Nat) : Int)
  else ((u % 4294967296 : Nat) : Int) - 4294967296

/-- ECMAScript `ToInt32`. -/
def toInt32 (a : Int) : Int := toInt32ofU (toUInt32 a)

/-- JavaScript `a | b` (signed 32-bit bitwise or). -/
def jsOr (a b : Int) : Int := toInt32ofU (Nat.lor (toUInt32 a) (toUInt32 b))

/-- JavaScript `a & b` (signed 32-bit bitwise and). -/
def jsAnd (a b : Int) : Int := toInt32ofU (Nat.land (toUInt32 a) (toUInt32 b))

/-- JavaScript `a << s` (signed 32-bit shift left; shift count taken mod 32). -/
def jsShl (a : Int) (s : Nat) : Int := toInt32ofU ((toUInt32 a) <<< (s % 32))

/-- JavaScript `a >> s` (sign-propagating 32-bit shift right = flooring
division by `2^s`; shift count taken mod 32). -/
def jsShr (a : Int) (s : Nat) : Int := Int.fdiv (toInt32 a) ((2 : Int) ^ (s % 32))

/-!
## The varint reader (`CredentialManager.readVarint`)

```ts
private readVarint(buffer: Buffer, offset: number): { value: number; newOffset: number } {
    let result = 0; let shift = 0; let pos = offset;
    while (pos < buffer.length) {
        const byte = buffer[pos];
        result |= (byte & 0x7f) << shift;
        pos++;
        if ((byte & 0x80) === 0) { return { value: result, newOffset: pos }; }
        shift += 7;
    }
    return { value: 0, newOffset: offset };
}
```

`readVarintGo` runs the loop over the bytes from the current position onward;
`none` is the fall-through "ran past the end" outcome.  A negative `offset`
(which can arise from the caller's arithmetic, see `findFieldGo`) makes the
first iteration read `buffer[pos] = undefined`; `undefined & 0x7f` and
`undefined & 0x80` both evaluate to `0` in JavaScript, so the loop returns at
once with `{ value: result | 0 << shift = 0, newOffset: offset + 1 }` — that
is the `offset < 0` branch below.
-/

/-- Loop body of `readVarint`, one step per remaining byte. -/
def readVarintGo : List Nat → Int → Int → Nat → Option (Int × Int)
  | [], _, _, _ => none
  | byte :: rest, pos, result, shift =>
    let result' := jsOr result (jsShl ((byte &&& 127 : Nat) : Int) shift)
    if byte &&& 128 = 0 then some (result', pos + 1)
    else readVarintGo rest (pos + 1) result' (shift + 7)

/-- `CredentialManager.readVarint` (value, newOffset). -/
def readVarint (buffer : List Nat) (offset : Int) : Int × Int :=
  if offset < 0 then (0, offset + 1)
  else
    match readVarintGo (buffer.drop offset.toNat) offset 0 0 with
    | some r => r
    | none => (0, offset)

/-!
## Specification-side varint definitions

`varintSpec` is the mathematical contract from the spec ("reads 7 bits at a
time from successive bytes, little-endian group order, continuation bit = high
bit, until a byte with the continuation bit clear"): it returns the
accumulated value and the number of consumed bytes, or `none` when the bytes
run out first.  `encodeVarint` is the standard continuation-bit encoder the
spec's round-trip property refers to; neither function appears in the source,
both are transcribed from the spec's words.
-/

/-- Accumulated value and consumed byte count of the first varint in `bs`
(specification-side definition, little-endian 7-bit groups). -/
def varintSpec : List Nat → Option (Nat × Nat)
  | [] => none
  | b :: rest =>
    if b &&& 128 = 0 then some (b &&& 127, 1)
    else
      match varintSpec rest with
      | some (v, c) => some ((b &&& 127) + 128 * v, c + 1)
      | none => none

/-- Standard unsigned varint encoder (specification-side definition). -/
def encodeVarint (n : Nat) : List Nat :=
  if h : n < 128 then [n]
  else (n % 128 + 128) :: encodeVarint (n / 128)
termination_by n
decreasing_by exact Nat.div_lt_self (by omega) (by omega)

example : readVarint [5] 0 = (5, 1) := by decide
example : readVarint [172, 2] 0 = (300, 2) := by decide
example : readVarint [128, 128] 0 = (0, 0) := by decide
example : readVarint [128, 128, 128, 128, 8] 0 = (-2147483648, 5) := by decide
example : varintSpec [128, 128, 128, 128, 8] = some (2147483648, 5) := by decide
example : readVarint [5] 3 = (0, 3) := by decide
example : readVarint [5] (-2) = (0, -1) := by decide

/-!
## Buffer.slice and the protobuf field walk (`CredentialManager.findProtobufField`)

`Buffer.prototype.slice(start, end)` (an alias of `subarray`) clamps its
arguments: a negative index counts from the end of the buffer, an index past
the end is clamped to the length, and an empty buffer results when
`end ≤ start` after clamping.
-/

/-- Clamp one `Buffer.slice` index to `[0, len]`, Node semantics. -/
def jsSliceIndex (len : Nat) (i : Int) : Nat :=
  if i < 0 then ((len : Int) + i).toNat else min i.toNat len

/-- Node `buffer.slice(start, fin)`. -/
def jsSlice (buffer : List Nat) (start fin : Int) : List Nat :=
  (buffer.take (jsSliceIndex buffer.length fin)).drop (jsSliceIndex buffer.length start)

/-!
The `while (offset < buffer.length)` loop of `findProtobufField` is not
structurally decreasing: on wire type 2 the code does `offset += length`,
where `length` is a 32-bit value read from the (untrusted) buffer and can be
negative after `ToInt32` wrap-around, sending `offset` backwards.  The loop's
only state is `offset`, so a run that takes more than one step per reachable
offset value revisits an offset and cycles forever.  Offsets reachable from
`0` lie in `(-2^31, buffer.length]`, so `2^32 + buffer.length` steps of fuel
are more than the number of distinct reachable offsets: with that budget the
embedding agrees with every terminating JavaScript run, and returns `none`
("field not found") exactly where the JavaScript would loop forever.
-/

/-- Loop of `CredentialManager.findProtobufField`, one fuel per iteration. -/
def findFieldGo (buffer : List Nat) (targetField : Int) : Nat → Int → Option (List Nat)
  | 0, _ => none
  | fuel + 1, offset =>
    if offset < (buffer.length : Int) then
      let t := readVarint buffer offset
      let tag := t.1
      let tagEnd := t.2
      if tagEnd = offset then none
      else
        let wireType := jsAnd tag 7
        let fieldNum := jsShr tag 3
        if wireType = 2 then
          let l := readVarint buffer tagEnd
          let length := l.1
          let contentStart := l.2
          if fieldNum = targetField then some (jsSlice buffer contentStart (contentStart + length))
          else findFieldGo buffer targetField fuel (contentStart + length)
        else if wireType = 0 then
          findFieldGo buffer targetField fuel (readVarint buffer tagEnd).2
        else if wireType = 1 then
          findFieldGo buffer targetField fuel (tagEnd + 8)
        else if wireType = 5 then
          findFieldGo buffer targetField fuel (tagEnd + 4)
        else none
    else none

/-- `CredentialManager.findProtobufField`. -/
def findProtobufField (buffer : List Nat) (targetField : Int) : Option (List Nat) :=
  findFieldGo buffer targetField (4294967296 + buffer.length) 0

/-!
## UTF-8 decoding (`Buffer.prototype.toString('utf8')`)

Node decodes per the WHATWG UTF-8 decoder: invalid sequences produce U+FFFD
and decoding restarts at the byte that broke the sequence.  The bounds on the
first continuation byte for the `E0/ED/F0/F4` lead bytes reject overlong
encodings, surrogates and values above U+10FFFF.
-/

/-- Unicode replacement character U+FFFD. -/
def replChar : Char := Char.ofNat 65533

/-- WHATWG UTF-8 decode, driven by fuel; every step consumes at least one
byte, so fuel equal to the byte count (supplied by `utf8Decode`) is enough. -/
def utf8DecodeGo : Nat → List Nat → List Char
  | 0, _ => []
  | _, [] => []
  | fuel + 1, b :: rest =>
    if b ≤ 127 then Char.ofNat b :: utf8DecodeGo fuel rest
    else if 194 ≤ b ∧ b ≤ 223 then
      match rest with
      | [] => [replChar]
      | c1 :: rest1 =>
        if 128 ≤ c1 ∧ c1 ≤ 191 then
          Char.ofNat ((b - 192) * 64 + (c1 - 128)) :: utf8DecodeGo fuel rest1
        else replChar :: utf8DecodeGo fuel (c1 :: rest1)
    else if 224 ≤ b ∧ b ≤ 239 then
      match rest with
      | [] => [replChar]
      | c1 :: rest1 =>
        if (if b = 224 then 160 ≤ c1 ∧ c1 ≤ 191
            else if b = 237 then 128 ≤ c1 ∧ c1 ≤ 159
            else 128 ≤ c1 ∧ c1 ≤ 191) then
          match rest1 with
          | [] => [replChar]
          | c2 :: rest2 =>
            if 128 ≤ c2 ∧ c2 ≤ 191 then
              Char.ofNat ((b - 224) * 4096 + (c1 - 128) * 64 + (c2 - 128)) :: utf8DecodeGo fuel rest2
            else replChar :: utf8DecodeGo fuel (c2 :: rest2)
        else replChar :: utf8DecodeGo fuel (c1 :: rest1)
    else if 240 ≤ b ∧ b ≤ 244 then
      match rest with
      | [] => [replChar]
      | c1 :: rest1 =>
        if (if b = 240 then 144 ≤ c1 ∧ c1 ≤ 191
            else if b = 244 then 128 ≤ c1 ∧ c1 ≤ 143
            else 128 ≤ c1 ∧ c1 ≤ 191) then
          match rest1 with
          | [] => [replChar]
          | c2 :: rest2 =>
            if 128 ≤ c2 ∧ c2 ≤ 191 then
              match rest2 with
              | [] => [replChar]
              | c3 :: rest3 =>
                if 128 ≤ c3 ∧ c3 ≤ 191 then
                  Char.ofNat ((b - 240) * 262144 + (c1 - 128) * 4096 + (c2 - 128) * 64 + (c3 - 128)) ::
                    utf8DecodeGo fuel rest3
                else replChar :: utf8DecodeGo fuel (c3 :: rest3)
            else replChar :: utf8DecodeGo fuel (c2 :: rest2)
        else replChar :: utf8DecodeGo fuel (c1 :: rest1)
    else replChar :: utf8DecodeGo fuel rest

/-- WHATWG UTF-8 decode of a byte list (what `buf.toString('utf8')` runs). -/
def utf8Decode (bytes : List Nat) : List Char := utf8DecodeGo bytes.length bytes

/-- Node `buffer.toString('utf8')`. -/
def bufToStringUtf8 (buffer : List Nat) : String := String.mk (utf8Decode buffer)

/-- `CredentialManager.extractAccessTokenFromProtobuf`: field 6 of the outer
record, then field 1 of that payload, as UTF-8 text.  A `Buffer` object is
always truthy in JavaScript (even when empty), so the inner `if (accessToken)`
test only distinguishes `null` from a buffer; nothing in the body can throw,
so the surrounding `try/catch` is inert. -/
def extractAccessTokenFromProtobuf (buffer : List Nat) : Option String :=
  match findProtobufField buffer 6 with
  | none => none
  | some oauthData =>
    match findProtobufField oauthData 1 with
    | some accessToken => some (bufToStringUtf8 accessToken)
    | none => none

example : extractAccessTokenFromProtobuf [50, 7, 10, 5, 84, 79, 75, 69, 78] = some "TOKEN" := by decide
example : extractAccessTokenFromProtobuf [50, 100, 10, 1, 65] = some "A" := by decide
example : extractAccessTokenFromProtobuf [128] = none := by decide

/-!
## CredentialManager (`src/credentialManager.ts`)

`getCredentials` tries a protobuf-encoded record, then a JSON auth-status
record.  Each attempt copies the state database to a fresh temp path, queries
one row with sqlite, decodes it, and runs a `finally` block that unlinks the
temp copy when it exists.  External effects are modelled by a `CredEnv`:

* `dbExists` — `fs.existsSync(dbPath)` (`getDBPath` itself always returns a
  non-empty path string on every platform branch, so only existence matters);
* `copyOk` — whether `fs.copyFileSync` succeeds; `copyFailLeavesPartial` —
  whether a failed copy left a partial file at the temp path;
* `protoQuery`/`authQuery` — the `execSync('sqlite3 …')` outcome for each of
  the two keys (`.error` = the command threw);
* `b64` — `Buffer.from(s, 'base64')` (its exact byte output is irrelevant to
  every claim, so it is a field of the environment);
* `jsonParse` — `JSON.parse` outcome of the auth-status row: `.error` = parse
  threw, `.ok k` = the parsed object's `apiKey` property (`none` when absent
  or not a truthy-able string, `some s` a string value, where only `s ≠ ""`
  is truthy);
* `now` — `Date.now()`.

The pair returned by each extraction is (result, "a file at the temp path
still exists after the attempt returned").  Inside the attempt, the first
component models the `try` body's outcome (`.error` = an exception reached
the `catch`), the second whether a file exists at the temp path when the
`finally` block starts.
-/

/-- JS whitespace (`\s`, also the set trimmed by `String.prototype.trim`):
tab, LF, VT, FF, CR, space, NBSP, and the Unicode space separators. -/
def isJsSpace (c : Char) : Bool :=
  decide (c = ' ' ∨ c = '\t' ∨ c = '\n' ∨ c = '\r' ∨ c.toNat = 11 ∨ c.toNat = 12 ∨
    c.toNat = 160 ∨ c.toNat = 5760 ∨ (8192 ≤ c.toNat ∧ c.toNat ≤ 8202) ∨
    c.toNat = 8232 ∨ c.toNat = 8233 ∨ c.toNat = 8239 ∨ c.toNat = 8287 ∨
    c.toNat = 12288 ∨ c.toNat = 65279)

/-- JavaScript `String.prototype.trim` on a char list. -/
def jsTrimChars (cs : List Char) : List Char :=
  ((cs.dropWhile isJsSpace).reverse.dropWhile isJsSpace).reverse

/-- JavaScript `String.prototype.trim`. -/
def jsTrim (s : String) : String := String.mk (jsTrimChars s.data)

/-- OAuth credentials returned by `CredentialManager.getCredentials`. -/
structure OAuthCredentials where
  accessToken : String
  refreshToken : String
  expiryDate : Nat
deriving DecidableEq

/-- Outcomes of the external effects one `CredentialManager` call performs. -/
structure CredEnv where
  dbExists : Bool
  copyOk : Bool
  copyFailLeavesPartial : Bool
  protoQuery : Except Unit String
  authQuery : Except Unit String
  b64 : String → List Nat
  jsonParse : String → Except Unit (Option String)
  now : Nat

/-- `CredentialManager.extractFromProtobuf` (result, temp file remains). -/
def extractFromProtobuf (env : CredEnv) : Option OAuthCredentials × Bool :=
  if env.dbExists = false then (none, false)
  else
    let body : Except Unit (Option OAuthCredentials) × Bool :=
      if env.copyOk = false then (.error (), env.copyFailLeavesPartial)
      else
        match env.protoQuery with
        | .error _ => (.error (), true)
        | .ok raw =>
          let output := jsTrim raw
          if output = "" then (.ok none, true)
          else
            let buffer := env.b64 output
            match extractAccessTokenFromProtobuf buffer with
            | some accessToken =>
              if accessToken ≠ "" then
                (.ok (some ⟨accessToken, "", env.now + 3600000⟩), true)
              else (.ok none, true)
            | none => (.ok none, true)
    let tempAfter := if body.2 then false else body.2
    (match body.1 with | .ok r => r | .error _ => none, tempAfter)

/-- `CredentialManager.extractFromAuthStatus` (result, temp file remains). -/
def extractFromAuthStatus (env : CredEnv) : Option OAuthCredentials × Bool :=
  if env.dbExists = false then (none, false)
  else
    let body : Except Unit (Option OAuthCredentials) × Bool :=
      if env.copyOk = false then (.error (), env.copyFailLeavesPartial)
      else
        match env.authQuery with
        | .error _ => (.error (), true)
        | .ok raw =>
          let output := jsTrim raw
          if output = "" then (.ok none, true)
          else
            match env.jsonParse output with
            | .error _ => (.error (), true)
            | .ok apiKey =>
              match apiKey with
              | some k =>
                if k ≠ "" then (.ok (some ⟨k, "", env.now + 3600000⟩), true)
                else (.ok none, true)
              | none => (.ok none, true)
    let tempAfter := if body.2 then false else body.2
    (match body.1 with | .ok r => r | .error _ => none, tempAfter)

/-- `CredentialManager.getCredentials` (result, some temp file remains). -/
def getCredentials (env : CredEnv) : Option OAuthCredentials × Bool :=
  let p := extractFromProtobuf env
  match p.1 with
  | some c => (some c, p.2)
  | none =>
    let a := extractFromAuthStatus env
    (a.1, p.2 || a.2)

/-!
## ProcessHunter (`src/processHunter.ts`)

The embedding fixes the POSIX platform branch (`ps -eo pid,args` listing and
the `^\s*(\d+)\s+(.+)$` per-line parse); the Windows branch differs only in
the listing command and its JSON parse, not in any behaviour the verified
properties mention.  External effects live in a `ScanEnv`:

* `listOutcome i` — outcome of the `execAsync(processListCommand)` of attempt
  `i` (`.error` = the command threw, e.g. `grep` exiting non-zero when no
  process matches);
* `portQuery pid` — outcome of the port-listing command for `pid`, already
  parsed to its port list (`parsePortList`'s text scraping is consumed by no
  verified property, so the environment supplies its result directly;
  `.error` = the command threw, which `identifyPorts` turns into `[]`);
* `probe port token` — whether the single `testPort` POST to `port`, carrying
  `token` in the `X-Codeium-Csrf-Token` header, produced a response body that
  `JSON.parse` accepted (`testPort` resolves `false`, never rejects, on
  transport errors and timeouts).
-/

/-- Candidate extracted from one process's command line (`ProcessInfo`). -/
structure ProcessInfo where
  pid : Nat
  extensionPort : Nat
  csrfToken : String
deriving DecidableEq

/-- Verified scan result (`EnvironmentScanResult`). -/
structure EnvironmentScanResult where
  extensionPort : Nat
  connectPort : Nat
  csrfToken : String
deriving DecidableEq

/-- Outcomes of the external effects a `ProcessHunter` scan performs. -/
structure ScanEnv where
  listOutcome : Nat → Except Unit String
  portQuery : Nat → Except Unit (List Nat)
  probe : Nat → String → Bool

/-- Characters of the hex/UUID-ish class `[a-f0-9-]` under the regex's `i`
flag (which also admits `A`–`F`). -/
def isTokenChar (c : Char) : Bool :=
  decide (('a' ≤ c ∧ c ≤ 'f') ∨ ('A' ≤ c ∧ c ≤ 'F') ∨ ('0' ≤ c ∧ c ≤ '9') ∨ c = '-')

/-- Characters of `\d`. -/
def isDigitChar (c : Char) : Bool := decide ('0' ≤ c ∧ c ≤ '9')

/-- Characters of the separator class `[=\s]`. -/
def isSepChar (c : Char) : Bool := c = '=' || isJsSpace c

/-- Characters the regex `.` matches (anything but a line terminator). -/
def isDotChar (c : Char) : Bool :=
  decide (¬(c = '\n' ∨ c = '\r' ∨ c.toNat = 8232 ∨ c.toNat = 8233))

/-- Maximal run: split `cs` into its longest prefix of characters satisfying
`p` and the remainder (the engine's greedy matching of a character class). -/
def takeClass (p : Char → Bool) : List Char → List Char × List Char
  | [] => ([], [])
  | c :: cs =>
    if p c then
      let r := takeClass p cs
      (c :: r.1, r.2)
    else ([], c :: cs)

/-- Case-insensitive literal match at the head of the input (the regex `i`
flag canonicalisation restricted to ASCII, which is exact for these ASCII
flag literals under a non-`u` regex): on success, returns the rest. -/
def matchLitCI : List Char → List Char → Option (List Char)
  | [], s => some s
  | _ :: _, [] => none
  | l :: ls, c :: cs => if c.toLower = l then matchLitCI ls cs else none

/-- Attempt `flagLit[=\s]+([cls]+)` at the current position.  The separator
class `[=\s]` and both value classes (`[a-f0-9-]` / `\d`) are disjoint, so
the engine's greedy-with-backtracking search is equivalent to maximal-munch:
giving a separator character back to the value class can never succeed. -/
def matchArgAt (flag : List Char) (cls : Char → Bool) (s : List Char) : Option (List Char) :=
  match matchLitCI flag s with
  | none => none
  | some r =>
    let sp := takeClass isSepChar r
    if sp.1 = [] then none
    else
      let tk := takeClass cls sp.2
      if tk.1 = [] then none else some tk.1

/-- Leftmost regex match: try `matchArgAt` at each successive position and
return the first capture (what `String.prototype.match` returns in `[1]`). -/
def searchArg (flag : List Char) (cls : Char → Bool) : List Char → Option (List Char)
  | [] => none
  | c :: cs =>
    match matchArgAt flag cls (c :: cs) with
    | some t => some t
    | none => searchArg flag cls cs

/-- The literal `--csrf_token` (lower-cased pattern of the token regex). -/
def csrfFlag : List Char := ['-', '-', 'c', 's', 'r', 'f', '_', 't', 'o', 'k', 'e', 'n']

/-- The literal `--extension_server_port`. -/
def portFlag : List Char :=
  ['-', '-', 'e', 'x', 't', 'e', 'n', 's', 'i', 'o', 'n', '_',
   's', 'e', 'r', 'v', 'e', 'r', '_', 'p', 'o', 'r', 't']

/-- JavaScript `parseInt(s, 10)` on an all-digit string. -/
def digitsToNat (ds : List Char) : Nat :=
  ds.foldl (fun n c => n * 10 + (c.toNat - 48)) 0

/-- `ProcessHunter.extractFromCommandLine`: both regexes must match. -/
def extractFromCommandLine (pid : Nat) (cmdline : String) : Option ProcessInfo :=
  match searchArg csrfFlag isTokenChar cmdline.data,
        searchArg portFlag isDigitChar cmdline.data with
  | some tok, some port => some ⟨pid, digitsToNat port, String.mk tok⟩
  | _, _ => none

/-- JavaScript `split('\n')`. -/
def splitOnNl : List Char → List (List Char)
  | [] => [[]]
  | c :: cs =>
    if c = '\n' then [] :: splitOnNl cs
    else
      match splitOnNl cs with
      | l :: ls => (c :: l) :: ls
      | [] => [[c]]

/-- One line against `^\s*(\d+)\s+(.+)$` (anchored, non-multiline): leading
whitespace, a maximal digit run, then `\s+(.+)$`.  Greedy `\s+` takes the
maximal whitespace run it can while leaving at least one character, and
`(.+)$` must cover the entire remainder with non-line-terminator characters;
since every shorter `\s+` choice only grows that remainder, the match exists
iff the greediest split works. -/
def lineMatch (cs : List Char) : Option (List Char × List Char) :=
  let r0 := (takeClass isJsSpace cs).2
  let d := takeClass isDigitChar r0
  if d.1 = [] then none
  else
    let r := d.2
    let spLen := (takeClass isJsSpace r).1.length
    let j := min spLen (r.length - 1)
    if 1 ≤ j ∧ (r.drop j).all isDotChar = true then some (d.1, r.drop j) else none

/-- Parse one `ps` output line and extract a candidate from it. -/
def parseLine (line : List Char) : Option ProcessInfo :=
  match lineMatch line with
  | none => none
  | some (pidDigits, cmdline) => extractFromCommandLine (digitsToNat pidDigits) (String.mk cmdline)

/-- `ProcessHunter.parseProcessInfo` (POSIX branch). -/
def parseProcessInfo (stdout : String) : List ProcessInfo :=
  (splitOnNl (jsTrimChars stdout.data)).filterMap parseLine

/-- `ProcessHunter.identifyPorts`: a failed port-listing command yields `[]`. -/
def identifyPorts (env : ScanEnv) (pid : Nat) : List Nat :=
  match env.portQuery pid with
  | .error _ => []
  | .ok ports => ports

/-- `ProcessHunter.verifyConnection`: first port whose probe succeeds. -/
def verifyConnection (env : ScanEnv) : List Nat → String → Option Nat
  | [], _ => none
  | p :: rest, tok => if env.probe p tok then some p else verifyConnection env rest tok

/-- `ProcessHunter.verifyAndConnect`. -/
def verifyAndConnect (env : ScanEnv) (info : ProcessInfo) : Option EnvironmentScanResult :=
  let ports := identifyPorts env info.pid
  if 0 < ports.length then
    match verifyConnection env ports info.csrfToken with
    | some validPort => some ⟨info.extensionPort, validPort, info.csrfToken⟩
    | none => none
  else none

/-- The candidate loop inside `scanEnvironment`: first verified candidate. -/
def tryCandidates (env : ScanEnv) : List ProcessInfo → Option EnvironmentScanResult
  | [] => none
  | info :: rest =>
    match verifyAndConnect env info with
    | some r => some r
    | none => tryCandidates env rest

/-- The retry loop of `scanEnvironment`, instrumented: the triple is
(result, process-listing invocations, backoff waits performed).  `rem` is the
number of attempts still to run and `i` the current attempt index, so the
`i < maxAttempts - 1` backoff guard is `0 < rem`.  An empty (after `trim`)
stdout hits `continue`, which skips the backoff at the bottom of the loop
body. -/
def scanAux (env : ScanEnv) : Nat → Nat → Nat → Nat → Option EnvironmentScanResult × Nat × Nat
  | 0, _, calls, sleeps => (none, calls, sleeps)
  | rem + 1, i, calls, sleeps =>
    match env.listOutcome i with
    | .error _ =>
      if 0 < rem then scanAux env rem (i + 1) (calls + 1) (sleeps + 1)
      else scanAux env rem (i + 1) (calls + 1) sleeps
    | .ok stdout =>
      if jsTrim stdout = "" then scanAux env rem (i + 1) (calls + 1) sleeps
      else
        match tryCandidates env (parseProcessInfo stdout) with
        | some r => (some r, calls + 1, sleeps)
        | none =>
          if 0 < rem then scanAux env rem (i + 1) (calls + 1) (sleeps + 1)
          else scanAux env rem (i + 1) (calls + 1) sleeps

/-- `ProcessHunter.scanEnvironment`, instrumented with the number of
process-listing invocations and backoff waits. -/
def scanEnvironment (env : ScanEnv) (maxAttempts : Nat) :
    Option EnvironmentScanResult × Nat × Nat :=
  scanAux env maxAttempts 0 0 0

/-- How one attempt of the scan loop ends. -/
inductive RoundOutcome where
  | errored
  | empty
  | noCandidate
  | success (r : EnvironmentScanResult)

/-- Outcome of attempt `i` against `env` (replays the body of the loop). -/
def roundOutcome (env : ScanEnv) (i : Nat) : RoundOutcome :=
  match env.listOutcome i with
  | .error _ => .errored
  | .ok stdout =>
    if jsTrim stdout = "" then .empty
    else
      match tryCandidates env (parseProcessInfo stdout) with
      | some r => .success r
      | none => .noCandidate

/-- Rounds after which the loop body reaches the backoff wait. -/
def backoffRound : RoundOutcome → Bool
  | .errored => true
  | .noCandidate => true
  | _ => false

/-- Rounds that return a result. -/
def isSuccessRound : RoundOutcome → Bool
  | .success _ => true
  | _ => false

example : extractFromCommandLine 1 "--csrf_token=ab12 --extension_server_port 8080" =
    some ⟨1, 8080, "ab12"⟩ := by decide
example : extractFromCommandLine 1 "./ls --extension_server_port=99 --csrf_token abc" =
    some ⟨1, 99, "abc"⟩ := by decide
example : extractFromCommandLine 1 "--csrf_token=ab12" = none := by decide
example : parseProcessInfo " 123 ls --csrf_token=ab --extension_server_port=45\n" =
    [⟨123, 45, "ab"⟩] := by decide

/-!
## Specification-side predicates for the command-line extraction property

`hasTokenArg`/`hasPortArg` transcribe the spec's "well-formed CSRF-token
argument (flag followed by a hex/UUID-like token)" and "well-formed port
argument (flag followed by digits)" as the existence of a decomposition of
the string; `buildCmd` builds a command line containing both arguments in
either order with arbitrary separator runs.
-/

/-- The string contains a well-formed CSRF-token argument. -/
def hasTokenArg (s : String) : Prop :=
  ∃ u fm sep tk rest, s.data = u ++ fm ++ sep ++ tk ++ rest ∧
    fm.map Char.toLower = csrfFlag ∧ sep ≠ [] ∧ (∀ c ∈ sep, isSepChar c = true) ∧
    tk ≠ [] ∧ (∀ c ∈ tk, isTokenChar c = true)

/-- The string contains a well-formed port argument. -/
def hasPortArg (s : String) : Prop :=
  ∃ u fm sep tk rest, s.data = u ++ fm ++ sep ++ tk ++ rest ∧
    fm.map Char.toLower = portFlag ∧ sep ≠ [] ∧ (∀ c ∈ sep, isSepChar c = true) ∧
    tk ≠ [] ∧ (∀ c ∈ tk, isDigitChar c = true)

/-- A command line holding a CSRF-token argument and a port argument, in
either order, separated from their flags by arbitrary separator runs. -/
def buildCmd (tokFirst : Bool) (sep1 tok sep2 port : List Char) : List Char :=
  if tokFirst then csrfFlag ++ sep1 ++ tok ++ ' ' :: (portFlag ++ sep2 ++ port)
  else portFlag ++ sep2 ++ port ++ ' ' :: (csrfFlag ++ sep1 ++ tok)

/-!
## Analysis helpers for the regex search (verification-side, computable)

`litMismatch flag avail = true` certifies that the case-insensitive literal
match of `flag` fails within the available characters `avail`, before any
continuation could matter; `regionFails flag pre = true` certifies that the
literal cannot start at any position inside `pre`.  Both are decidable, so
concrete regions of a command line can be dispatched by `decide`.
-/

/-- Does matching `flag` fail strictly inside `avail` (independently of what
follows `avail`)? -/
def litMismatch : List Char → List Char → Bool
  | [], _ => false
  | _ :: _, [] => false
  | l :: ls, c :: cs => if c.toLower = l then litMismatch ls cs else true

/-- Does the literal `flag` fail to start at every position inside `pre`? -/
def regionFails (flag : List Char) : List Char → Bool
  | [] => true
  | c :: rest => litMismatch flag (c :: rest) && regionFails flag rest

/-!
## Concrete environments used by witnesses and counterexamples
-/

/-- An environment in which the protobuf attempt errors out and the JSON
fallback finds `apiKey = "abc"`. -/
def credEnvW : CredEnv where
  dbExists := true
  copyOk := true
  copyFailLeavesPartial := false
  protoQuery := .error ()
  authQuery := .ok "j"
  b64 := fun _ => []
  jsonParse := fun _ => .ok (some "abc")
  now := 0

/-- An environment whose single process listing yields one candidate whose
first port answers the probe. -/
def scanEnvOk : ScanEnv where
  listOutcome := fun _ => .ok "123 ls --csrf_token=ab --extension_server_port=45"
  portQuery := fun _ => .ok [2000]
  probe := fun _ _ => true

/-- An environment in which every process listing throws (as `grep` does when
nothing matches). -/
def scanEnvNoMatch : ScanEnv where
  listOutcome := fun _ => .error ()
  portQuery := fun _ => .error ()
  probe := fun _ _ => false

/-- An environment in which every process listing returns empty output. -/
def scanEnvEmptyOut : ScanEnv where
  listOutcome := fun _ => .ok ""
  portQuery := fun _ => .error ()
  probe := fun _ _ => false

/-!
## Helper lemmas: 32-bit arithmetic of the varint reader
-/

theorem toUInt32_natCast (n : Nat) (h : n < 4294967296) : toUInt32 (n : Int) = n := by
  unfold toUInt32
  omega

theorem toInt32ofU_of_lt {u : Nat} (h : u < 2147483648) : toInt32ofU u = (u : Int) := by
  unfold toInt32ofU
  rw [Nat.mod_eq_of_lt (show u < 4294967296 by omega), if_pos h]

theorem lor_disjoint (r a k : Nat) (h : r < 2 ^ k) : r ||| (2 ^ k * a) = 2 ^ k * a + r := by
  apply Nat.eq_of_testBit_eq
  intro j
  rw [Nat.testBit_or, Nat.testBit_mul_pow_two_add a h j]
  have h2 : (2 : Nat) ^ k * a = 2 ^ k * a + 0 := by omega
  rw [h2, Nat.testBit_mul_pow_two_add a (by positivity) j]
  by_cases hj : j < k
  · simp [hj]
  · have : r.testBit j = false :=
      Nat.testBit_lt_two_pow (lt_of_lt_of_le h (Nat.pow_le_pow_right (by omega) (by omega)))
    simp [hj, this]

theorem jsShl_zero (s : Nat) : jsShl 0 s = 0 := by
  have h0 : toUInt32 0 = 0 := by unfold toUInt32; rfl
  unfold jsShl
  rw [h0, Nat.zero_shiftLeft]
  unfold toInt32ofU
  norm_num

theorem jsShl_small (a s : Nat) (hs : s < 32) (h : 2 ^ s * a < 2147483648) :
    jsShl (a : Int) s = ((2 ^ s * a : Nat) : Int) := by
  have ha : a < 4294967296 := by
    have := Nat.two_pow_pos s
    nlinarith
  unfold jsShl
  rw [Nat.mod_eq_of_lt hs, toUInt32_natCast a ha, Nat.shiftLeft_eq, Nat.mul_comm]
  exact toInt32ofU_of_lt h

theorem jsOr_natCast (a b : Nat) (ha : a < 2147483648) (hb : b < 2147483648) :
    jsOr (a : Int) (b : Int) = ((a ||| b : Nat) : Int) := by
  have h31 : (2147483648 : Nat) = 2 ^ 31 := by norm_num
  unfold jsOr
  rw [toUInt32_natCast a (by omega), toUInt32_natCast b (by omega)]
  exact toInt32ofU_of_lt (h31 ▸ Nat.or_lt_two_pow (h31 ▸ ha) (h31 ▸ hb))

theorem and127_eq (n : Nat) : n &&& 127 = n % 128 := by
  have h : (127 : Nat) = 2 ^ 7 - 1 := by norm_num
  rw [h, Nat.and_pow_two_sub_one_eq_mod]

theorem and128_eq (n : Nat) : n &&& 128 = if n / 128 % 2 = 1 then 128 else 0 := by
  have h : (128 : Nat) = 2 ^ 7 := by norm_num
  rw [h, Nat.and_two_pow, Nat.testBit_to_div_mod]
  by_cases hc : n / 128 % 2 = 1 <;> simp [hc]

theorem readVarintGo_none :
    ∀ (bs : List Nat) (pos result : Int) (shift : Nat),
      varintSpec bs = none → readVarintGo bs pos result shift = none := by
  intro bs
  induction bs with
  | nil => intro pos result shift _; rfl
  | cons b rest ih =>
    intro pos result shift h
    by_cases hb : b &&& 128 = 0
    · simp [varintSpec, hb] at h
    · simp only [varintSpec, if_neg hb] at h
      rcases hrest : varintSpec rest with _ | p
      · simp only [readVarintGo, if_neg hb]
        exact ih _ _ _ hrest
      · rw [hrest] at h
        rcases p with ⟨v, c⟩
        simp at h

theorem readVarintGo_spec :
    ∀ (bs : List Nat) (i : Nat) (pos : Int) (r v c : Nat),
      varintSpec bs = some (v, c) → r < 2 ^ (7 * i) → r + 2 ^ (7 * i) * v < 2147483648 →
      readVarintGo bs pos (r : Int) (7 * i) =
        some (((r + 2 ^ (7 * i) * v : Nat) : Int), pos + (c : Int)) := by
  intro bs
  induction bs with
  | nil => intro i pos r v c h _ _; simp [varintSpec] at h
  | cons b rest ih =>
    intro i pos r v c h hr hbound
    have hrlt : r < 2147483648 := by
      have := Nat.le_add_right r (2 ^ (7 * i) * v)
      omega
    have ha127 : b &&& 127 ≤ 127 := by
      rw [and127_eq]
      omega
    by_cases hb : b &&& 128 = 0
    · -- final byte of the varint
      simp only [varintSpec, if_pos hb, Option.some.injEq, Prod.mk.injEq] at h
      obtain ⟨hv, hc⟩ := h
      have hshl : jsShl ((b &&& 127 : Nat) : Int) (7 * i) = ((2 ^ (7 * i) * (b &&& 127) : Nat) : Int) := by
        by_cases hi : 7 * i < 32
        · exact jsShl_small _ _ hi (by rw [hv]; omega)
        · have hv0 : v = 0 := by
            have hp : (2147483648 : Nat) ≤ 2 ^ (7 * i) := by
              calc (2147483648 : Nat) ≤ 2 ^ 35 := by norm_num
                _ ≤ 2 ^ (7 * i) := Nat.pow_le_pow_right (by omega) (by omega)
            have : 2 ^ (7 * i) * v ≤ r + 2 ^ (7 * i) * v := Nat.le_add_left _ _
            rcases Nat.eq_zero_or_pos v with h0 | h0
            · exact h0
            · exfalso
              have : 2 ^ (7 * i) ≤ 2 ^ (7 * i) * v := Nat.le_mul_of_pos_right _ h0
              omega
          rw [hv, hv0, Nat.mul_zero]
          exact_mod_cast jsShl_zero (7 * i)
      simp only [readVarintGo, if_pos hb, hshl]
      rw [jsOr_natCast r _ hrlt (by rw [hv]; omega)]
      rw [lor_disjoint r (b &&& 127) (7 * i) hr]
      subst hv hc
      rw [Nat.add_comm (2 ^ (7 * i) * (b &&& 127)) r]
      norm_num
    · -- continuation byte
      simp only [varintSpec, if_neg hb] at h
      rcases hrest : varintSpec rest with _ | p
      · rw [hrest] at h; simp at h
      · rcases p with ⟨v', c'⟩
        rw [hrest] at h
        simp only [Option.some.injEq, Prod.mk.injEq] at h
        obtain ⟨hv, hc⟩ := h
        have hterm : 2 ^ (7 * i) * (b &&& 127) < 2147483648 := by
          have h1 : 2 ^ (7 * i) * (b &&& 127) ≤ 2 ^ (7 * i) * v := by
            apply Nat.mul_le_mul_left
            omega
          omega
        have hshl : jsShl ((b &&& 127 : Nat) : Int) (7 * i) =
            ((2 ^ (7 * i) * (b &&& 127) : Nat) : Int) := by
          by_cases hi : 7 * i < 32
          · exact jsShl_small _ _ hi hterm
          · have hp : (2147483648 : Nat) ≤ 2 ^ (7 * i) := by
              calc (2147483648 : Nat) ≤ 2 ^ 35 := by norm_num
                _ ≤ 2 ^ (7 * i) := Nat.pow_le_pow_right (by omega) (by omega)
            have hb0 : b &&& 127 = 0 := by
              rcases Nat.eq_zero_or_pos (b &&& 127) with h0 | h0
              · exact h0
              · exfalso
                have : 2 ^ (7 * i) ≤ 2 ^ (7 * i) * (b &&& 127) := Nat.le_mul_of_pos_right _ h0
                omega
            rw [hb0, Nat.mul_zero]
            exact_mod_cast jsShl_zero (7 * i)
        simp only [readVarintGo, if_neg hb, hshl]
        rw [jsOr_natCast r _ hrlt hterm]
        rw [lor_disjoint r (b &&& 127) (7 * i) hr]
        have hstep : (7 * i) + 7 = 7 * (i + 1) := by ring
        have hpow : (2 : Nat) ^ (7 * (i + 1)) = 2 ^ (7 * i) * 128 := by
          rw [Nat.mul_add, Nat.pow_add]
        have hr2 : 2 ^ (7 * i) * (b &&& 127) + r < 2 ^ (7 * (i + 1)) := by
          rw [hpow]
          have h1 : 2 ^ (7 * i) * (b &&& 127) ≤ 2 ^ (7 * i) * 127 :=
            Nat.mul_le_mul_left _ ha127
          omega
        have hkey : (2 ^ (7 * i) * (b &&& 127) + r) + 2 ^ (7 * (i + 1)) * v' =
            r + 2 ^ (7 * i) * v := by
          rw [hpow, ← hv]
          ring
        have hbound2 : (2 ^ (7 * i) * (b &&& 127) + r) + 2 ^ (7 * (i + 1)) * v' < 2147483648 := by
          rw [hkey]; exact hbound
        rw [hstep]
        have := ih (i + 1) (pos + 1) (2 ^ (7 * i) * (b &&& 127) + r) v' c' hrest hr2 hbound2
        rw [this, hkey]
        subst hc
        have hc2 : pos + 1 + (c' : Int) = pos + ((c' + 1 : Nat) : Int) := by push_cast; ring
        rw [hc2]

theorem readVarint_of_varintSpec_none (buffer : List Nat) (offset : Nat)
    (h : varintSpec (buffer.drop offset) = none) :
    readVarint buffer (offset : Int) = (0, (offset : Int)) := by
  unfold readVarint
  rw [if_neg (by omega), Int.toNat_natCast]
  rw [readVarintGo_none _ _ _ _ h]

theorem readVarint_of_varintSpec_some (buffer : List Nat) (offset v c : Nat)
    (h : varintSpec (buffer.drop offset) = some (v, c)) (hv : v < 2147483648) :
    readVarint buffer (offset : Int) = ((v : Int), (offset : Int) + (c : Int)) := by
  unfold readVarint
  rw [if_neg (by omega), Int.toNat_natCast]
  have hmain := readVarintGo_spec (buffer.drop offset) 0 (offset : Int) 0 v c h
    (by norm_num) (by simpa using hv)
  simp only [Nat.mul_zero, pow_zero, Nat.one_mul, Nat.zero_add, Nat.cast_ofNat,
    Nat.cast_zero] at hmain
  rw [hmain]

theorem varintSpec_encodeVarint (n : Nat) :
    varintSpec (encodeVarint n) = some (n, (encodeVarint n).length) := by
  induction n using Nat.strong_induction_on with
  | _ n ih =>
    rw [encodeVarint]
    by_cases h : n < 128
    · rw [dif_pos h]
      have hz : n / 128 = 0 := Nat.div_eq_of_lt h
      simp only [varintSpec, and128_eq, and127_eq, hz]
      norm_num
      exact h
    · rw [dif_neg h]
      have hx : n / 128 < n := Nat.div_lt_self (by omega) (by omega)
      have hdiv : (n % 128 + 128) / 128 = 1 := by omega
      have hm : (n % 128 + 128) % 128 = n % 128 := by omega
      simp only [varintSpec, and128_eq, and127_eq, hdiv, hm, ih (n / 128) hx]
      norm_num
      omega

/-!
## Claims C3 and C4: the varint reader
-/

/-- Concrete evaluation of the spec-side encoder at `2^31` (used by the C3
counterexample). -/
theorem encodeVarint_two_pow_31 : encodeVarint 2147483648 = [128, 128, 128, 128, 8] := by
  rw [encodeVarint]; norm_num
  rw [encodeVarint]; norm_num
  rw [encodeVarint]; norm_num
  rw [encodeVarint]; norm_num
  rw [encodeVarint]; norm_num

/-- C3, counterexample: decoding the standard encoding of `n = 2^31` does not
give back `n` — the reader accumulates through JavaScript's signed 32-bit `|`
and `<<`, so the value comes back as `-2^31`. -/
theorem C3_counterexample :
    ¬(readVarint (encodeVarint 2147483648) 0 =
      ((2147483648 : Int), ((encodeVarint 2147483648).length : Int))) := by
  rw [encodeVarint_two_pow_31]
  decide

/-- C3 (amended): for every unsigned integer `n < 2^31`, encoding `n` with the
standard 7-bit-per-byte continuation-bit varint scheme and decoding with
`readVarint` at offset 0 yields value `n` and a `newOffset` equal to the
number of encoded bytes.  (For `n ≥ 2^31` the reader's 32-bit accumulator
wraps, see the counterexample.) -/
theorem C3_varint_roundTrip (n : Nat) (h : n < 2147483648) :
    readVarint (encodeVarint n) 0 = ((n : Int), ((encodeVarint n).length : Int)) := by
  have hspec : varintSpec ((encodeVarint n).drop 0) = some (n, (encodeVarint n).length) := by
    simpa using varintSpec_encodeVarint n
  have hmain := readVarint_of_varintSpec_some (encodeVarint n) 0 n (encodeVarint n).length hspec h
  simpa using hmain

/-- Witness for C3: the round trip at the concrete input `n = 300`. -/
theorem C3_varint_roundTrip_witness :
    (300 : Nat) < 2147483648 ∧
      readVarint (encodeVarint 300) 0 = ((300 : Int), ((encodeVarint 300).length : Int)) :=
  ⟨by norm_num, C3_varint_roundTrip 300 (by norm_num)⟩

/-- C4, counterexample: on `[0x80, 0x80, 0x80, 0x80, 0x08]` at offset 0 the
terminating byte is reached and the accumulated little-endian 7-bit value is
`2^31` (first conjunct, via the spec-side reference `varintSpec`), but
`readVarint` does not return that accumulated value (it returns `-2^31`). -/
theorem C4_counterexample :
    varintSpec [128, 128, 128, 128, 8] = some (2147483648, 5) ∧
      ¬(readVarint [128, 128, 128, 128, 8] 0 = ((2147483648 : Int), (5 : Int))) := by
  decide

/-- C4 (amended): for every buffer and every starting offset, if the buffer
ends before a byte with the continuation bit clear is reached (`varintSpec`
returns `none` on the bytes from the offset), `readVarint` returns value `0`
and `newOffset` equal to the starting offset; otherwise it returns the
accumulated 7-bits-per-byte little-endian-group value and the offset just
past the last consumed byte, provided that accumulated value is below `2^31`
(above that the 32-bit accumulator wraps, see the counterexample). -/
theorem C4_readVarint_contract (buffer : List Nat) (offset : Nat) :
    (varintSpec (buffer.drop offset) = none →
      readVarint buffer (offset : Int) = (0, (offset : Int))) ∧
    (∀ v c, varintSpec (buffer.drop offset) = some (v, c) → v < 2147483648 →
      readVarint buffer (offset : Int) = ((v : Int), (offset : Int) + (c : Int))) :=
  ⟨readVarint_of_varintSpec_none buffer offset,
   fun v c h hv => readVarint_of_varintSpec_some buffer offset v c h hv⟩

/-- Witness for C4: both halves of the contract at concrete inputs — a buffer
that is all continuation bytes, and a two-byte varint for 300. -/
theorem C4_readVarint_contract_witness :
    readVarint [128] 0 = (0, 0) ∧ readVarint [172, 2] 0 = (300, 2) := by
  constructor
  · have h := (C4_readVarint_contract [128] 0).1 (by decide)
    simpa using h
  · have h := (C4_readVarint_contract [172, 2] 0).2 300 2 (by decide) (by norm_num)
    simpa using h

/-!
## Claims C5 and C6: the protobuf field walk
-/

theorem jsSlice_decomp (buffer : List Nat) (s e : Int) :
    ∃ u w, buffer = u ++ jsSlice buffer s e ++ w := by
  refine ⟨(buffer.take (jsSliceIndex buffer.length e)).take (jsSliceIndex buffer.length s),
    buffer.drop (jsSliceIndex buffer.length e), ?_⟩
  unfold jsSlice
  rw [List.take_append_drop, List.take_append_drop]

theorem findFieldGo_infix (buffer : List Nat) (target : Int) :
    ∀ (fuel : Nat) (offset : Int) (payload : List Nat),
      findFieldGo buffer target fuel offset = some payload →
      ∃ u w, buffer = u ++ payload ++ w := by
  intro fuel
  induction fuel with
  | zero => intro offset payload h; simp [findFieldGo] at h
  | succ fuel ih =>
    intro offset payload h
    simp only [findFieldGo] at h
    split at h
    · split at h
      · exact absurd h (by simp)
      · split at h
        · split at h
          · obtain rfl : jsSlice buffer (readVarint buffer (readVarint buffer offset).2).2
                ((readVarint buffer (readVarint buffer offset).2).2 +
                  (readVarint buffer (readVarint buffer offset).2).1) = payload :=
              Option.some.inj h
            exact jsSlice_decomp buffer _ _
          · exact ih _ _ h
        · split at h
          · exact ih _ _ h
          · split at h
            · exact ih _ _ h
            · split at h
              · exact ih _ _ h
              · exact absurd h (by simp)
    · exact absurd h (by simp)

theorem findFieldGo_none_of_truncated (buffer : List Nat) (target : Int) :
    ∀ (fuel offset : Nat), varintSpec (buffer.drop offset) = none →
      findFieldGo buffer target fuel (offset : Int) = none := by
  intro fuel offset h
  cases fuel with
  | zero => rfl
  | succ fuel =>
    by_cases hlt : (offset : Int) < (buffer.length : Int)
    · simp only [findFieldGo]
      rw [if_pos hlt, readVarint_of_varintSpec_none buffer offset h]
      simp
    · simp only [findFieldGo]
      rw [if_neg hlt]

/-- C5 (amended): the extractor never throws and never reads past the end of
the buffer — any payload the field walk produces is a contiguous infix of
the buffer, because `Buffer.slice` clamps out-of-range indices.  A buffer
that terminates mid-varint where the walk is reading a *tag* (the bytes from
that position onward all carry the continuation bit, i.e. `varintSpec` is
`none` there) stops the walk with not-found, so the extractor returns null
whenever the whole buffer is such an unterminated varint.  The original
blanket "returns null" is false, though: truncation inside a *length* varint
is read as length 0, so a target field truncated there yields an empty
payload and the extractor returns the empty string, and a declared length
exceeding the remaining bytes on the target field yields the clamped
remaining bytes — the counterexample shows both. -/
theorem C5_malformed_buffer :
    (∀ (buffer : List Nat) (target : Int) (fuel offset : Nat),
        varintSpec (buffer.drop offset) = none →
        findFieldGo buffer target fuel (offset : Int) = none) ∧
    (∀ buffer : List Nat, varintSpec buffer = none →
        extractAccessTokenFromProtobuf buffer = none) ∧
    (∀ (buffer : List Nat) (target : Int) (payload : List Nat),
        findProtobufField buffer target = some payload → ∃ u w, buffer = u ++ payload ++ w) := by
  refine ⟨findFieldGo_none_of_truncated, ?_, ?_⟩
  · intro buffer h
    have h0 : findProtobufField buffer 6 = none := by
      unfold findProtobufField
      exact findFieldGo_none_of_truncated buffer 6 _ 0 (by simpa using h)
    unfold extractAccessTokenFromProtobuf
    rw [h0]
  · intro buffer target payload h
    exact findFieldGo_infix buffer target _ _ _ h

/-- Witness for C5: the amended statement applied at concrete buffers — an
unterminated varint makes the walk and the extractor report not-found, and a
returned payload sits inside its buffer. -/
theorem C5_malformed_buffer_witness :
    findFieldGo [128, 255] 6 7 0 = none ∧
      extractAccessTokenFromProtobuf [128, 255] = none ∧
      ∃ u w, ([50, 1, 65] : List Nat) = u ++ [65] ++ w :=
  ⟨C5_malformed_buffer.1 [128, 255] 6 7 0 (by decide),
   C5_malformed_buffer.2.1 [128, 255] (by decide),
   C5_malformed_buffer.2.2 [50, 1, 65] 6 [65] (by decide)⟩

/-- C5, counterexample: both universally quantified halves of the original
claim fail on the code.  `[0x32, 100, 0x0A, 1, 65]` declares a
length-delimited target field of length 100 with only 3 bytes remaining, yet
the extractor returns `some "A"` (the slice is clamped, not rejected).
`[0x32, 2, 0x0A, 0x96]` terminates mid-varint — its final byte `0x96`
carries the continuation bit and is the unterminated length varint of inner
field 1, as the `varintSpec` conjunct records — yet the extractor returns
`some ""`: the truncated length reads as `(0, offset)`, the slice is empty,
an empty `Buffer` is truthy, and it decodes to the empty string. -/
theorem C5_counterexample :
    (100 > ([50, 100, 10, 1, 65] : List Nat).length ∧
      extractAccessTokenFromProtobuf [50, 100, 10, 1, 65] = some "A") ∧
    (varintSpec [150] = none ∧
      extractAccessTokenFromProtobuf [50, 2, 10, 150] = some "") := by
  decide

/-- C6: for the buffer `[tag(6,2), len, nested]` where `nested` is
`[tag(1,2), len2, UTF-8 "TOKEN"]`, the two-level field lookup (field 6 in the
outer buffer, then field 1 in that payload, as UTF-8) returns `"TOKEN"`. -/
theorem C6_twoLevelWalk :
    extractAccessTokenFromProtobuf [50, 7, 10, 5, 84, 79, 75, 69, 78] = some "TOKEN" := by
  decide

/-!
## Claims C2 and C10: credential extraction
-/

theorem if_self_false (b : Bool) : (if b then false else b) = false := by
  cases b <;> rfl

theorem extractFromProtobuf_snd (env : CredEnv) : (extractFromProtobuf env).2 = false := by
  unfold extractFromProtobuf
  split
  · rfl
  · exact if_self_false _

theorem extractFromAuthStatus_snd (env : CredEnv) : (extractFromAuthStatus env).2 = false := by
  unfold extractFromAuthStatus
  split
  · rfl
  · exact if_self_false _

/-- C2: for every call to `getCredentials`, on every exit path of each
extraction attempt (success, record absent, decode failure, or an exception
during the copy, the query, or parsing), the temporary database copy of that
attempt is removed before the attempt returns — the `finally` block deletes
whatever exists at the temp path, so no temp file remains afterwards. -/
theorem C2_tempCleanup (env : CredEnv) :
    (extractFromProtobuf env).2 = false ∧ (extractFromAuthStatus env).2 = false ∧
      (getCredentials env).2 = false := by
  refine ⟨extractFromProtobuf_snd env, extractFromAuthStatus_snd env, ?_⟩
  unfold getCredentials
  rcases hp : (extractFromProtobuf env).1 with _ | c
  · simp [hp, extractFromProtobuf_snd env, extractFromAuthStatus_snd env]
  · simp [hp, extractFromProtobuf_snd env]

theorem extractFromProtobuf_token (env : CredEnv) (c : OAuthCredentials)
    (h : (extractFromProtobuf env).1 = some c) : c.accessToken ≠ "" := by
  unfold extractFromProtobuf at h
  split at h
  · simp at h
  · dsimp only at h
    split at h
    case h_2 => simp at h
    case h_1 r heq =>
      rw [h] at heq
      split at heq
      · simp at heq
      · split at heq
        · simp at heq
        · split at heq
          · simp at heq
          · split at heq
            · split at heq
              · rename_i tok _ htok
                simp only [Prod.fst, Except.ok.injEq, Option.some.injEq] at heq
                subst heq
                exact htok
              · simp at heq
            · simp at heq

theorem extractFromAuthStatus_token (env : CredEnv) (c : OAuthCredentials)
    (h : (extractFromAuthStatus env).1 = some c) : c.accessToken ≠ "" := by
  unfold extractFromAuthStatus at h
  split at h
  · simp at h
  · dsimp only at h
    split at h
    case h_2 => simp at h
    case h_1 r heq =>
      rw [h] at heq
      split at heq
      · simp at heq
      · split at heq
        · simp at heq
        · split at heq
          · simp at heq
          · split at heq
            · simp at heq
            · split at heq
              · split at heq
                · rename_i k _ hk
                  simp only [Prod.fst, Except.ok.injEq, Option.some.injEq] at heq
                  subst heq
                  exact hk
                · simp at heq
              · simp at heq

/-- C10: whenever `getCredentials` returns a non-null credential, its
`accessToken` is a non-empty string — an extraction that locates the target
field but finds an empty token (empty field-1 payload in the binary path, or
an empty/absent `apiKey` in the JSON path) yields null instead. -/
theorem C10_nonEmptyToken (env : CredEnv) (cred : OAuthCredentials)
    (h : (getCredentials env).1 = some cred) : cred.accessToken ≠ "" := by
  unfold getCredentials at h
  dsimp only at h
  rcases hp : (extractFromProtobuf env).1 with _ | c
  · rw [hp] at h
    dsimp only at h
    exact extractFromAuthStatus_token env cred h
  · rw [hp] at h
    dsimp only at h
    obtain rfl : c = cred := Option.some.inj h
    exact extractFromProtobuf_token env _ hp

/-- Witness for C10: a run in which `getCredentials` produces a credential,
whose token is then non-empty by the theorem. -/
theorem C10_nonEmptyToken_witness :
    (getCredentials credEnvW).1 = some ⟨"abc", "", 3600000⟩ ∧ ("abc" : String) ≠ "" :=
  ⟨by decide, C10_nonEmptyToken credEnvW ⟨"abc", "", 3600000⟩ (by decide)⟩

/-!
## Claims C1, C8, C9: the scan loop
-/

theorem verifyConnection_some (env : ScanEnv) :
    ∀ (ports : List Nat) (tok : String) (p : Nat),
      verifyConnection env ports tok = some p → env.probe p tok = true := by
  intro ports
  induction ports with
  | nil => intro tok p h; simp [verifyConnection] at h
  | cons q rest ih =>
    intro tok p h
    simp only [verifyConnection] at h
    split at h
    · rename_i hq
      obtain rfl := Option.some.inj h
      exact hq
    · exact ih tok p h

theorem verifyAndConnect_some (env : ScanEnv) (info : ProcessInfo) (r : EnvironmentScanResult)
    (h : verifyAndConnect env info = some r) : env.probe r.connectPort r.csrfToken = true := by
  unfold verifyAndConnect at h
  dsimp only at h
  split at h
  · split at h
    case h_1 validPort heq =>
      obtain rfl := Option.some.inj h
      exact verifyConnection_some env _ _ _ heq
    case h_2 => simp at h
  · simp at h

theorem tryCandidates_some (env : ScanEnv) :
    ∀ (l : List ProcessInfo) (r : EnvironmentScanResult),
      tryCandidates env l = some r → env.probe r.connectPort r.csrfToken = true := by
  intro l
  induction l with
  | nil => intro r h; simp [tryCandidates] at h
  | cons info rest ih =>
    intro r h
    simp only [tryCandidates] at h
    split at h
    case h_1 v heq =>
      obtain rfl := Option.some.inj h
      exact verifyAndConnect_some env info _ heq
    case h_2 => exact ih r h

theorem scanAux_some (env : ScanEnv) :
    ∀ (rem i calls sleeps : Nat) (r : EnvironmentScanResult) (c' s' : Nat),
      scanAux env rem i calls sleeps = (some r, c', s') →
      env.probe r.connectPort r.csrfToken = true := by
  intro rem
  induction rem with
  | zero => intro i calls sleeps r c' s' h; simp [scanAux] at h
  | succ rem ih =>
    intro i calls sleeps r c' s' h
    simp only [scanAux] at h
    split at h
    · split at h
      · exact ih _ _ _ _ _ _ h
      · exact ih _ _ _ _ _ _ h
    · split at h
      · exact ih _ _ _ _ _ _ h
      · split at h
        case h_1 v heq =>
          simp only [Prod.mk.injEq] at h
          obtain ⟨h1, -⟩ := h
          obtain rfl := Option.some.inj h1
          exact tryCandidates_some env _ _ heq
        case h_2 =>
          split at h
          · exact ih _ _ _ _ _ _ h
          · exact ih _ _ _ _ _ _ h

/-- C1: a `ScanResult` is returned only if its `connectPort` was confirmed by
a verification probe carrying the candidate's CSRF token whose response body
parsed as JSON (`probe` is the outcome of that `testPort` probe):
`scanEnvironment` never returns a port/token pair that did not pass it. -/
theorem C1_verifiedOnly (env : ScanEnv) (maxAttempts : Nat) (r : EnvironmentScanResult)
    (calls sleeps : Nat) (h : scanEnvironment env maxAttempts = (some r, calls, sleeps)) :
    env.probe r.connectPort r.csrfToken = true :=
  scanAux_some env maxAttempts 0 0 0 r calls sleeps h

/-- Witness for C1: a scan that succeeds, whose result then satisfies the
verified-probe property. -/
theorem C1_verifiedOnly_witness :
    scanEnvironment scanEnvOk 1 = (some ⟨45, 2000, "ab"⟩, 1, 0) ∧
      scanEnvOk.probe 2000 "ab" = true :=
  ⟨by decide, C1_verifiedOnly scanEnvOk 1 ⟨45, 2000, "ab"⟩ 1 0 (by decide)⟩

theorem scanAux_noSuccess (env : ScanEnv) :
    ∀ (rem i calls sleeps : Nat),
      (∀ j, j < rem → isSuccessRound (roundOutcome env (i + j)) = false) →
      scanAux env rem i calls sleeps =
        (none, calls + rem,
          sleeps + (List.range' i (rem - 1)).countP (fun j => backoffRound (roundOutcome env j))) := by
  intro rem
  induction rem with
  | zero => intro i calls sleeps _; simp [scanAux]
  | succ rem ih =>
    intro i calls sleeps hfail
    have h0 := hfail 0 (by omega)
    simp only [Nat.add_zero] at h0
    have hfail' : ∀ j, j < rem → isSuccessRound (roundOutcome env (i + 1 + j)) = false := by
      intro j hj
      simpa [show i + 1 + j = i + (j + 1) from by omega] using hfail (j + 1) (by omega)
    rcases hl : env.listOutcome i with e | stdout
    · have hro : roundOutcome env i = .errored := by simp [roundOutcome, hl]
      simp only [scanAux, hl]
      rcases rem with _ | r
      · rw [if_neg (Nat.lt_irrefl 0)]
        simp [scanAux, List.range']
      · rw [if_pos (Nat.succ_pos r), ih (i + 1) (calls + 1) (sleeps + 1) hfail']
        have hcnt : (List.range' i (r + 1)).countP (fun j => backoffRound (roundOutcome env j)) =
            (List.range' (i + 1) r).countP (fun j => backoffRound (roundOutcome env j)) + 1 := by
          rw [List.range'_succ, List.countP_cons_of_pos _ _ (by simp [hro, backoffRound])]
        simp only [Nat.add_sub_cancel, Nat.succ_sub_one, hcnt, Prod.mk.injEq]
        exact ⟨trivial, by omega, by omega⟩
    · simp only [scanAux, hl]
      by_cases ht : jsTrim stdout = ""
      · have hro : roundOutcome env i = .empty := by simp [roundOutcome, hl, ht]
        rw [if_pos ht, ih (i + 1) (calls + 1) sleeps hfail']
        rcases rem with _ | r
        · simp [List.range']
        · have hcnt : (List.range' i (r + 1)).countP (fun j => backoffRound (roundOutcome env j)) =
              (List.range' (i + 1) r).countP (fun j => backoffRound (roundOutcome env j)) := by
            rw [List.range'_succ, List.countP_cons_of_neg _ _ (by simp [hro, backoffRound])]
          simp only [Nat.add_sub_cancel, Nat.succ_sub_one, hcnt, Prod.mk.injEq]
          exact ⟨trivial, by omega, trivial⟩
      · rw [if_neg ht]
        rcases hc : tryCandidates env (parseProcessInfo stdout) with _ | v
        · have hro : roundOutcome env i = .noCandidate := by simp [roundOutcome, hl, ht, hc]
          rcases rem with _ | r
          · rw [if_neg (Nat.lt_irrefl 0)]
            simp [scanAux, List.range']
          · rw [if_pos (Nat.succ_pos r), ih (i + 1) (calls + 1) (sleeps + 1) hfail']
            have hcnt : (List.range' i (r + 1)).countP (fun j => backoffRound (roundOutcome env j)) =
                (List.range' (i + 1) r).countP (fun j => backoffRound (roundOutcome env j)) + 1 := by
              rw [List.range'_succ, List.countP_cons_of_pos _ _ (by simp [hro, backoffRound])]
            simp only [Nat.add_sub_cancel, Nat.succ_sub_one, hcnt, Prod.mk.injEq]
            exact ⟨trivial, by omega, by omega⟩
        · exfalso
          have hro : roundOutcome env i = .success v := by simp [roundOutcome, hl, ht, hc]
          rw [hro] at h0
          simp [isSuccessRound] at h0

/-- C8: in an environment where no round yields a candidate (every process
listing either throws or parses to no candidates), `scanEnvironment env 3`
invokes the process-listing mechanism exactly 3 times and returns null rather
than raising an error (the embedding is a total function returning `none`). -/
theorem C8_threeAttempts (env : ScanEnv)
    (h : ∀ i s, env.listOutcome i = .ok s → parseProcessInfo s = []) :
    (scanEnvironment env 3).1 = none ∧ (scanEnvironment env 3).2.1 = 3 := by
  have hfail : ∀ j, j < 3 → isSuccessRound (roundOutcome env (0 + j)) = false := by
    intro j _
    unfold roundOutcome
    rcases hl : env.listOutcome (0 + j) with e | s
    · rfl
    · dsimp only
      rw [h (0 + j) s hl]
      by_cases ht : jsTrim s = ""
      · simp [ht, isSuccessRound]
      · simp [ht, tryCandidates, isSuccessRound]
  have hmain := scanAux_noSuccess env 3 0 0 0 hfail
  unfold scanEnvironment
  rw [hmain]
  exact ⟨rfl, rfl⟩

/-- Witness for C8: the environment in which every listing throws. -/
theorem C8_threeAttempts_witness :
    (scanEnvironment scanEnvNoMatch 3).1 = none ∧ (scanEnvironment scanEnvNoMatch 3).2.1 = 3 :=
  C8_threeAttempts scanEnvNoMatch (fun _ _ hs => Except.noConfusion hs)

/-- C9, counterexample: with `maxAttempts = 2` and a process listing that
returns empty output on every attempt, round 0 is unsuccessful and is not the
final round, yet the scan performs no backoff wait at all (third component
`0`): the `continue` taken on empty output skips the wait at the bottom of
the loop body, contradicting the claim that the backoff happens for every
way a round can fail. -/
theorem C9_counterexample : scanEnvironment scanEnvEmptyOut 2 = (none, 2, 0) := by decide

/-- C9 (amended): between unsuccessful rounds, the fixed ~100ms backoff wait
is performed before the next round's process listing when the round failed
with a thrown command error, with a listing that produced no valid candidate,
or with candidates that all failed verification — but a round whose listing
output is empty (after trimming) proceeds to the next round immediately,
skipping the backoff: in a run where no round succeeds, the number of waits
equals the number of non-final rounds that failed in a backoff-taking way. -/
theorem C9_backoff (env : ScanEnv) (maxAttempts : Nat)
    (h : ∀ j, j < maxAttempts → isSuccessRound (roundOutcome env j) = false) :
    scanEnvironment env maxAttempts =
      (none, maxAttempts,
        (List.range (maxAttempts - 1)).countP (fun j => backoffRound (roundOutcome env j))) := by
  have hmain := scanAux_noSuccess env maxAttempts 0 0 0 (by simpa using h)
  unfold scanEnvironment
  rw [hmain]
  simp [List.range_eq_range']

/-- Witness for C9: two all-error rounds give exactly one backoff wait. -/
theorem C9_backoff_witness : scanEnvironment scanEnvNoMatch 2 = (none, 2, 1) := by
  have h := C9_backoff scanEnvNoMatch 2 (fun _ _ => rfl)
  rw [h]
  decide

/-!
## Claim C7: command-line candidate extraction
-/

theorem char_toNat_ofNat_valid (n : Nat) (h : n < 55296) : (Char.ofNat n).toNat = n := by
  unfold Char.ofNat
  rw [dif_pos (Or.inl (by omega : n < 55296))]
  rfl

theorem char_le_toNat {a b : Char} : a ≤ b ↔ a.toNat ≤ b.toNat := by
  rw [Char.le_def, UInt32.le_def, BitVec.le_def]
  exact Iff.rfl

theorem char_eq_toNat {a b : Char} : a = b ↔ a.toNat = b.toNat :=
  ⟨fun h => h ▸ rfl, fun h => Char.eq_of_val_eq (UInt32.toNat.inj h)⟩

theorem toLower_toNat (c : Char) :
    (c.toLower).toNat = if 65 ≤ c.toNat ∧ c.toNat ≤ 90 then c.toNat + 32 else c.toNat := by
  unfold Char.toLower
  dsimp only
  split
  · rename_i h
    rw [char_toNat_ofNat_valid _ (by omega)]
  · rfl

theorem toLower_eq_dash {c : Char} (h : c.toLower = '-') : c = '-' := by
  rw [char_eq_toNat, toLower_toNat] at h
  rw [char_eq_toNat]
  have hd : ('-' : Char).toNat = 45 := by decide
  rw [hd] at h ⊢
  split at h <;> omega

theorem toLower_eq_x {c : Char} (h : c.toLower = 'x') : c = 'x' ∨ c = 'X' := by
  rw [char_eq_toNat, toLower_toNat] at h
  rw [char_eq_toNat, char_eq_toNat]
  have h1 : ('x' : Char).toNat = 120 := by decide
  have h2 : ('X' : Char).toNat = 88 := by decide
  rw [h1] at h ⊢
  rw [h2]
  split at h <;> omega

theorem tok_not_x {c : Char} (h : isTokenChar c = true) : ¬(c.toLower = 'x') := by
  intro he
  rcases toLower_eq_x he with rfl | rfl
  · exact absurd h (by decide)
  · exact absurd h (by decide)

theorem tok_not_dash_lower {c : Char} (h : isSepChar c = true ∨ isDigitChar c = true) :
    ¬(c.toLower = '-') := by
  intro he
  obtain rfl := toLower_eq_dash he
  rcases h with h | h
  · exact absurd h (by decide)
  · exact absurd h (by decide)

theorem matchLitCI_of_litMismatch :
    ∀ (flag avail tail : List Char), litMismatch flag avail = true →
      matchLitCI flag (avail ++ tail) = none := by
  intro flag
  induction flag with
  | nil => intro avail tail h; simp [litMismatch] at h
  | cons l ls ih =>
    intro avail tail h
    rcases avail with _ | ⟨c, cs⟩
    · simp [litMismatch] at h
    · simp only [litMismatch] at h
      by_cases hc : c.toLower = l
      · rw [if_pos hc] at h
        simp only [List.cons_append, matchLitCI, if_pos hc]
        exact ih cs tail h
      · simp only [List.cons_append, matchLitCI, if_neg hc]

theorem matchArgAt_none_of_lit {flag : List Char} {cls : Char → Bool} {s : List Char}
    (h : matchLitCI flag s = none) : matchArgAt flag cls s = none := by
  simp [matchArgAt, h]

theorem searchArg_cons_of_none {flag : List Char} {cls : Char → Bool} {c : Char} {cs : List Char}
    (h : matchArgAt flag cls (c :: cs) = none) :
    searchArg flag cls (c :: cs) = searchArg flag cls cs := by
  simp [searchArg, h]

theorem regionFails_skip (flag : List Char) (cls : Char → Bool) :
    ∀ (pre : List Char), regionFails flag pre = true →
      ∀ tail, searchArg flag cls (pre ++ tail) = searchArg flag cls tail := by
  intro pre
  induction pre with
  | nil => intro _ tail; rfl
  | cons c rest ih =>
    intro h tail
    simp only [regionFails, Bool.and_eq_true] at h
    obtain ⟨h1, h2⟩ := h
    have hlit := matchLitCI_of_litMismatch flag (c :: rest) tail h1
    rw [List.cons_append]
    rw [searchArg_cons_of_none (matchArgAt_none_of_lit (by simpa using hlit))]
    exact ih h2 tail

theorem headFail_skip (l0 : Char) (flagRest : List Char) (cls : Char → Bool) :
    ∀ (run : List Char), (∀ c ∈ run, ¬(c.toLower = l0)) →
      ∀ tail, searchArg (l0 :: flagRest) cls (run ++ tail) = searchArg (l0 :: flagRest) cls tail := by
  intro run
  induction run with
  | nil => intro _ tail; rfl
  | cons c rest ih =>
    intro h tail
    have hc : ¬(c.toLower = l0) := h c (List.mem_cons_self c rest)
    have hlit : matchLitCI (l0 :: flagRest) (c :: (rest ++ tail)) = none := by
      simp only [matchLitCI, if_neg hc]
    rw [List.cons_append, searchArg_cons_of_none (matchArgAt_none_of_lit hlit)]
    exact ih (fun x hx => h x (List.mem_cons_of_mem c hx)) tail

theorem litFail_tokenRun :
    ∀ (l zs : List Char), l ≠ [] → (∀ c ∈ l, isTokenChar c = true) →
      matchLitCI portFlag (l ++ ' ' :: zs) = none := by
  have hsp1 : ¬((' ' : Char).toLower = '-') := by decide
  have hsp2 : ¬((' ' : Char).toLower = 'e') := by decide
  have hsp3 : ¬((' ' : Char).toLower = 'x') := by decide
  intro l zs hne hall
  match l with
  | [a] =>
    by_cases h1 : a.toLower = '-'
    · simp only [portFlag, List.cons_append, List.nil_append, matchLitCI, if_pos h1, if_neg hsp1]
    · simp only [portFlag, List.cons_append, List.nil_append, matchLitCI, if_neg h1]
  | [a, b] =>
    by_cases h1 : a.toLower = '-'
    · by_cases h2 : b.toLower = '-'
      · simp only [portFlag, List.cons_append, List.nil_append, matchLitCI, if_pos h1, if_pos h2,
          if_neg hsp2]
      · simp only [portFlag, List.cons_append, List.nil_append, matchLitCI, if_pos h1, if_neg h2]
    · simp only [portFlag, List.cons_append, List.nil_append, matchLitCI, if_neg h1]
  | [a, b, c] =>
    by_cases h1 : a.toLower = '-'
    · by_cases h2 : b.toLower = '-'
      · by_cases h3 : c.toLower = 'e'
        · simp only [portFlag, List.cons_append, List.nil_append, matchLitCI, if_pos h1, if_pos h2,
            if_pos h3, if_neg hsp3]
        · simp only [portFlag, List.cons_append, List.nil_append, matchLitCI, if_pos h1, if_pos h2,
            if_neg h3]
      · simp only [portFlag, List.cons_append, List.nil_append, matchLitCI, if_pos h1, if_neg h2]
    · simp only [portFlag, List.cons_append, List.nil_append, matchLitCI, if_neg h1]
  | a :: b :: c :: d :: l' =>
    have hd : ¬(d.toLower = 'x') :=
      tok_not_x (hall d (by simp))
    by_cases h1 : a.toLower = '-'
    · by_cases h2 : b.toLower = '-'
      · by_cases h3 : c.toLower = 'e'
        · simp only [portFlag, List.cons_append, matchLitCI, if_pos h1, if_pos h2, if_pos h3,
            if_neg hd]
        · simp only [portFlag, List.cons_append, matchLitCI, if_pos h1, if_pos h2, if_neg h3]
      · simp only [portFlag, List.cons_append, matchLitCI, if_pos h1, if_neg h2]
    · simp only [portFlag, List.cons_append, matchLitCI, if_neg h1]

theorem skipTokenRun (zs : List Char) :
    ∀ (ts : List Char), (∀ c ∈ ts, isTokenChar c = true) →
      searchArg portFlag isDigitChar (ts ++ ' ' :: zs) =
        searchArg portFlag isDigitChar (' ' :: zs) := by
  intro ts
  induction ts with
  | nil => intro _; rfl
  | cons t rest ih =>
    intro h
    have hlit : matchLitCI portFlag ((t :: rest) ++ ' ' :: zs) = none :=
      litFail_tokenRun (t :: rest) zs (by simp) h
    rw [List.cons_append] at hlit ⊢
    rw [searchArg_cons_of_none (matchArgAt_none_of_lit hlit)]
    exact ih (fun x hx => h x (List.mem_cons_of_mem t hx))

theorem matchLitCI_self :
    ∀ (flag : List Char), (∀ c ∈ flag, c.toLower = c) →
      ∀ s, matchLitCI flag (flag ++ s) = some s := by
  intro flag
  induction flag with
  | nil => intro _ s; rfl
  | cons l ls ih =>
    intro h s
    have hl : l.toLower = l := h l (List.mem_cons_self l ls)
    simp only [List.cons_append, matchLitCI, if_pos hl]
    exact ih (fun x hx => h x (List.mem_cons_of_mem l hx)) s

theorem takeClass_run (p : Char → Bool) :
    ∀ (xs ys : List Char), (∀ c ∈ xs, p c = true) →
      (∀ c, ys.head? = some c → p c = false) →
      takeClass p (xs ++ ys) = (xs, ys) := by
  intro xs
  induction xs with
  | nil =>
    intro ys _ hy
    rcases ys with _ | ⟨c, cs⟩
    · rfl
    · simp only [List.nil_append, takeClass]
      rw [if_neg (by rw [hy c rfl]; exact fun hc => Bool.noConfusion hc)]
  | cons x xs ih =>
    intro ys hx hy
    have hpx : p x = true := hx x (List.mem_cons_self x xs)
    simp only [List.cons_append, takeClass, if_pos hpx]
    rw [show xs.append ys = xs ++ ys from rfl, ih ys (fun c hc => hx c (List.mem_cons_of_mem x hc)) hy]

theorem takeClass_all (p : Char → Bool) (xs : List Char) (h : ∀ c ∈ xs, p c = true) :
    takeClass p xs = (xs, []) := by
  have := takeClass_run p xs [] h (fun c hc => by simp at hc)
  simpa using this

theorem matchArgAt_build (flag : List Char) (cls : Char → Bool) (sep val tail : List Char)
    (hflag : ∀ c ∈ flag, c.toLower = c)
    (hsep : sep ≠ []) (hsepAll : ∀ c ∈ sep, isSepChar c = true)
    (hval : val ≠ []) (hvalAll : ∀ c ∈ val, cls c = true)
    (hvalSep : ∀ c, (val ++ tail).head? = some c → isSepChar c = false)
    (htail : ∀ c, tail.head? = some c → cls c = false) :
    matchArgAt flag cls (flag ++ sep ++ val ++ tail) = some val := by
  unfold matchArgAt
  have hl := matchLitCI_self flag hflag (sep ++ (val ++ tail))
  rw [show flag ++ sep ++ val ++ tail = flag ++ (sep ++ (val ++ tail)) by simp, hl]
  have hsp : takeClass isSepChar (sep ++ (val ++ tail)) = (sep, val ++ tail) :=
    takeClass_run isSepChar sep (val ++ tail) hsepAll hvalSep
  have htk : takeClass cls (val ++ tail) = (val, tail) :=
    takeClass_run cls val tail hvalAll htail
  dsimp only
  rw [hsp]
  dsimp only
  rw [if_neg hsep, htk]
  dsimp only
  rw [if_neg hval]

theorem searchArg_at_match (flag : List Char) (cls : Char → Bool) (l0 : Char) (ls s : List Char)
    (hf : flag = l0 :: ls) (t : List Char) (h : matchArgAt flag cls (flag ++ s) = some t) :
    searchArg flag cls (flag ++ s) = some t := by
  subst hf
  rw [List.cons_append]
  simp only [searchArg]
  rw [List.cons_append] at h
  rw [h]

theorem matchLitCI_sound :
    ∀ (flag s r : List Char), matchLitCI flag s = some r →
      ∃ fm, s = fm ++ r ∧ fm.map Char.toLower = flag := by
  intro flag
  induction flag with
  | nil =>
    intro s r h
    simp only [matchLitCI, Option.some.injEq] at h
    exact ⟨[], by simp [h]⟩
  | cons l ls ih =>
    intro s r h
    rcases s with _ | ⟨c, cs⟩
    · simp [matchLitCI] at h
    · simp only [matchLitCI] at h
      by_cases hc : c.toLower = l
      · rw [if_pos hc] at h
        obtain ⟨fm, hfm, hmap⟩ := ih cs r h
        exact ⟨c :: fm, by simp [hfm], by simp [hmap, hc]⟩
      · rw [if_neg hc] at h
        exact absurd h (by simp)

theorem takeClass_eq (p : Char → Bool) :
    ∀ (cs : List Char), cs = (takeClass p cs).1 ++ (takeClass p cs).2 ∧
      ∀ c ∈ (takeClass p cs).1, p c = true := by
  intro cs
  induction cs with
  | nil => exact ⟨rfl, by simp [takeClass]⟩
  | cons c rest ih =>
    by_cases hc : p c
    · simp only [takeClass, if_pos hc]
      obtain ⟨h1, h2⟩ := ih
      constructor
      · conv_lhs => rw [h1]
        simp
      · intro x hx
        rcases List.mem_cons.mp hx with rfl | hx'
        · exact hc
        · exact h2 x hx'
    · simp only [takeClass, if_neg hc]
      exact ⟨rfl, by simp⟩

theorem matchArgAt_sound (flag : List Char) (cls : Char → Bool) (s t : List Char)
    (h : matchArgAt flag cls s = some t) :
    ∃ fm sep rest, s = fm ++ sep ++ t ++ rest ∧ fm.map Char.toLower = flag ∧
      sep ≠ [] ∧ (∀ c ∈ sep, isSepChar c = true) ∧ t ≠ [] ∧ (∀ c ∈ t, cls c = true) := by
  unfold matchArgAt at h
  rcases hl : matchLitCI flag s with _ | r
  · rw [hl] at h; simp at h
  · rw [hl] at h
    dsimp only at h
    rcases hsp : takeClass isSepChar r with ⟨sep, mid⟩
    rw [hsp] at h
    dsimp only at h
    rcases htk : takeClass cls mid with ⟨tk, rest⟩
    rw [htk] at h
    dsimp only at h
    split at h
    · simp at h
    · split at h
      · simp at h
      · rename_i hsepne htokne
        simp only [Option.some.injEq] at h
        subst h
        obtain ⟨fm, hfm, hmap⟩ := matchLitCI_sound flag s r hl
        have hr := takeClass_eq isSepChar r
        rw [hsp] at hr
        obtain ⟨hr1, hr2⟩ := hr
        have hm := takeClass_eq cls mid
        rw [htk] at hm
        obtain ⟨hm1, hm2⟩ := hm
        refine ⟨fm, sep, rest, ?_, hmap, hsepne, by simpa using hr2, htokne, by simpa using hm2⟩
        rw [hfm, hr1, hm1]
        simp [List.append_assoc]

theorem searchArg_sound (flag : List Char) (cls : Char → Bool) :
    ∀ (s t : List Char), searchArg flag cls s = some t →
      ∃ u fm sep rest, s = u ++ fm ++ sep ++ t ++ rest ∧ fm.map Char.toLower = flag ∧
        sep ≠ [] ∧ (∀ c ∈ sep, isSepChar c = true) ∧ t ≠ [] ∧ (∀ c ∈ t, cls c = true) := by
  intro s
  induction s with
  | nil => intro t h; simp [searchArg] at h
  | cons c cs ih =>
    intro t h
    simp only [searchArg] at h
    rcases hm : matchArgAt flag cls (c :: cs) with _ | t'
    · rw [hm] at h
      obtain ⟨u, fm, sep, rest, h1, h2, h3, h4, h5, h6⟩ := ih t h
      exact ⟨c :: u, fm, sep, rest, by simp [h1], h2, h3, h4, h5, h6⟩
    · rw [hm] at h
      obtain rfl := Option.some.inj h
      obtain ⟨fm, sep, rest, h1, h2, h3, h4, h5, h6⟩ := matchArgAt_sound flag cls (c :: cs) _ hm
      exact ⟨[], fm, sep, rest, by simpa using h1, h2, h3, h4, h5, h6⟩

theorem sep_toNat {c : Char} (h : isSepChar c = true) :
    c.toNat = 61 ∨ c.toNat = 32 ∨ c.toNat = 9 ∨ c.toNat = 10 ∨ c.toNat = 13 ∨
      c.toNat = 11 ∨ c.toNat = 12 ∨ c.toNat = 160 ∨ c.toNat = 5760 ∨
      (8192 ≤ c.toNat ∧ c.toNat ≤ 8202) ∨ c.toNat = 8232 ∨ c.toNat = 8233 ∨
      c.toNat = 8239 ∨ c.toNat = 8287 ∨ c.toNat = 12288 ∨ c.toNat = 65279 := by
  simp only [isSepChar, isJsSpace, Bool.or_eq_true, decide_eq_true_eq] at h
  rcases h with rfl | h
  · left; decide
  · rcases h with rfl | rfl | rfl | rfl | h | h | h | h | h | h | h | h | h | h | h
    all_goals first
      | (right; left; decide)
      | (right; right; left; decide)
      | (right; right; right; left; decide)
      | (right; right; right; right; left; decide)
      | omega

theorem tok_toNat {c : Char} (h : isTokenChar c = true) :
    (97 ≤ c.toNat ∧ c.toNat ≤ 102) ∨ (65 ≤ c.toNat ∧ c.toNat ≤ 70) ∨
      (48 ≤ c.toNat ∧ c.toNat ≤ 57) ∨ c.toNat = 45 := by
  simp only [isTokenChar, decide_eq_true_eq] at h
  rcases h with ⟨h1, h2⟩ | ⟨h1, h2⟩ | ⟨h1, h2⟩ | rfl
  · rw [char_le_toNat] at h1 h2
    left
    constructor
    · calc (97 : Nat) = ('a' : Char).toNat := by decide
        _ ≤ c.toNat := h1
    · calc c.toNat ≤ ('f' : Char).toNat := h2
        _ = 102 := by decide
  · rw [char_le_toNat] at h1 h2
    right; left
    constructor
    · calc (65 : Nat) = ('A' : Char).toNat := by decide
        _ ≤ c.toNat := h1
    · calc c.toNat ≤ ('F' : Char).toNat := h2
        _ = 70 := by decide
  · rw [char_le_toNat] at h1 h2
    right; right; left
    constructor
    · calc (48 : Nat) = ('0' : Char).toNat := by decide
        _ ≤ c.toNat := h1
    · calc c.toNat ≤ ('9' : Char).toNat := h2
        _ = 57 := by decide
  · right; right; right; decide

theorem dig_toNat {c : Char} (h : isDigitChar c = true) : 48 ≤ c.toNat ∧ c.toNat ≤ 57 := by
  simp only [isDigitChar, decide_eq_true_eq] at h
  obtain ⟨h1, h2⟩ := h
  rw [char_le_toNat] at h1 h2
  constructor
  · calc (48 : Nat) = ('0' : Char).toNat := by decide
      _ ≤ c.toNat := h1
  · calc c.toNat ≤ ('9' : Char).toNat := h2
      _ = 57 := by decide

theorem tok_not_sep {c : Char} (h : isTokenChar c = true) : isSepChar c = false := by
  cases hs : isSepChar c
  · rfl
  · exfalso
    have h1 := tok_toNat h
    have h2 := sep_toNat hs
    rcases h1 with h1 | h1 | h1 | h1 <;> omega

theorem dig_not_sep {c : Char} (h : isDigitChar c = true) : isSepChar c = false := by
  cases hs : isSepChar c
  · rfl
  · exfalso
    have h1 := dig_toNat h
    have h2 := sep_toNat hs
    omega

theorem headFail_skip' (flag : List Char) (cls : Char → Bool) (l0 : Char) (ls : List Char)
    (hf : flag = l0 :: ls) (run : List Char) (h : ∀ c ∈ run, ¬(c.toLower = l0))
    (tail : List Char) : searchArg flag cls (run ++ tail) = searchArg flag cls tail := by
  subst hf
  exact headFail_skip l0 ls cls run h tail

theorem extract_build_tokFirst (pid : Nat) (sep1 tok sep2 port : List Char)
    (hs1 : sep1 ≠ []) (hs1a : ∀ c ∈ sep1, isSepChar c = true)
    (hs2 : sep2 ≠ []) (hs2a : ∀ c ∈ sep2, isSepChar c = true)
    (htok : tok ≠ []) (htoka : ∀ c ∈ tok, isTokenChar c = true)
    (hport : port ≠ []) (hporta : ∀ c ∈ port, isDigitChar c = true) :
    extractFromCommandLine pid (String.mk (buildCmd true sep1 tok sep2 port)) =
      some ⟨pid, digitsToNat port, String.mk tok⟩ := by
  have hzs : buildCmd true sep1 tok sep2 port =
      csrfFlag ++ (sep1 ++ (tok ++ (' ' :: (portFlag ++ sep2 ++ port)))) := by
    simp [buildCmd]
  have hTok : searchArg csrfFlag isTokenChar (buildCmd true sep1 tok sep2 port) = some tok := by
    have hvs : ∀ c, (tok ++ ' ' :: (portFlag ++ sep2 ++ port)).head? = some c →
        isSepChar c = false := by
      intro c hc
      rcases tok with _ | ⟨t0, ts⟩
      · exact absurd rfl htok
      · simp only [List.cons_append, List.head?_cons, Option.some.injEq] at hc
        subst hc
        exact tok_not_sep (htoka t0 (List.mem_cons_self t0 ts))
    have hht : ∀ c, (' ' :: (portFlag ++ sep2 ++ port)).head? = some c →
        isTokenChar c = false := by
      intro c hc
      simp only [List.head?_cons, Option.some.injEq] at hc
      subst hc
      decide
    have hmb := matchArgAt_build csrfFlag isTokenChar sep1 tok
      (' ' :: (portFlag ++ sep2 ++ port)) (by decide) hs1 hs1a htok htoka hvs hht
    have hmb' : matchArgAt csrfFlag isTokenChar
        (csrfFlag ++ (sep1 ++ (tok ++ (' ' :: (portFlag ++ sep2 ++ port))))) = some tok := by
      rw [show csrfFlag ++ (sep1 ++ (tok ++ (' ' :: (portFlag ++ sep2 ++ port)))) =
          csrfFlag ++ sep1 ++ tok ++ (' ' :: (portFlag ++ sep2 ++ port)) by simp]
      exact hmb
    rw [hzs]
    exact searchArg_at_match csrfFlag isTokenChar '-' _ _ rfl tok hmb'
  have hPort : searchArg portFlag isDigitChar (buildCmd true sep1 tok sep2 port) = some port := by
    rw [hzs]
    rw [regionFails_skip portFlag isDigitChar csrfFlag (by decide)]
    rw [headFail_skip' portFlag isDigitChar '-' _ rfl sep1
      (fun c hc => tok_not_dash_lower (Or.inl (hs1a c hc)))]
    rw [skipTokenRun (portFlag ++ sep2 ++ port) tok htoka]
    rw [show (' ' :: (portFlag ++ sep2 ++ port)) = [' '] ++ (portFlag ++ sep2 ++ port) from rfl]
    rw [headFail_skip' portFlag isDigitChar '-' _ rfl [' '] (by decide)]
    have hvs : ∀ c, (port ++ ([] : List Char)).head? = some c → isSepChar c = false := by
      intro c hc
      rcases port with _ | ⟨p0, ps⟩
      · exact absurd rfl hport
      · simp only [List.cons_append, List.head?_cons, Option.some.injEq] at hc
        subst hc
        exact dig_not_sep (hporta p0 (List.mem_cons_self p0 ps))
    have hht : ∀ c, ([] : List Char).head? = some c → isDigitChar c = false := by
      intro c hc
      simp at hc
    have hmb := matchArgAt_build portFlag isDigitChar sep2 port [] (by decide)
      hs2 hs2a hport hporta hvs hht
    have hmb' : matchArgAt portFlag isDigitChar (portFlag ++ (sep2 ++ port)) = some port := by
      rw [show portFlag ++ (sep2 ++ port) = portFlag ++ sep2 ++ port ++ [] by simp]
      exact hmb
    rw [show portFlag ++ sep2 ++ port = portFlag ++ (sep2 ++ port) by simp]
    exact searchArg_at_match portFlag isDigitChar '-' _ _ rfl port hmb'
  unfold extractFromCommandLine
  rw [show (String.mk (buildCmd true sep1 tok sep2 port)).data =
      buildCmd true sep1 tok sep2 port from rfl]
  rw [hTok, hPort]

theorem extract_build_portFirst (pid : Nat) (sep1 tok sep2 port : List Char)
    (hs1 : sep1 ≠ []) (hs1a : ∀ c ∈ sep1, isSepChar c = true)
    (hs2 : sep2 ≠ []) (hs2a : ∀ c ∈ sep2, isSepChar c = true)
    (htok : tok ≠ []) (htoka : ∀ c ∈ tok, isTokenChar c = true)
    (hport : port ≠ []) (hporta : ∀ c ∈ port, isDigitChar c = true) :
    extractFromCommandLine pid (String.mk (buildCmd false sep1 tok sep2 port)) =
      some ⟨pid, digitsToNat port, String.mk tok⟩ := by
  have hzs : buildCmd false sep1 tok sep2 port =
      portFlag ++ (sep2 ++ (port ++ (' ' :: (csrfFlag ++ sep1 ++ tok)))) := by
    simp [buildCmd]
  have hPort : searchArg portFlag isDigitChar (buildCmd false sep1 tok sep2 port) = some port := by
    have hvs : ∀ c, (port ++ ' ' :: (csrfFlag ++ sep1 ++ tok)).head? = some c →
        isSepChar c = false := by
      intro c hc
      rcases port with _ | ⟨p0, ps⟩
      · exact absurd rfl hport
      · simp only [List.cons_append, List.head?_cons, Option.some.injEq] at hc
        subst hc
        exact dig_not_sep (hporta p0 (List.mem_cons_self p0 ps))
    have hht : ∀ c, (' ' :: (csrfFlag ++ sep1 ++ tok)).head? = some c →
        isDigitChar c = false := by
      intro c hc
      simp only [List.head?_cons, Option.some.injEq] at hc
      subst hc
      decide
    have hmb := matchArgAt_build portFlag isDigitChar sep2 port
      (' ' :: (csrfFlag ++ sep1 ++ tok)) (by decide) hs2 hs2a hport hporta hvs hht
    have hmb' : matchArgAt portFlag isDigitChar
        (portFlag ++ (sep2 ++ (port ++ (' ' :: (csrfFlag ++ sep1 ++ tok))))) = some port := by
      rw [show portFlag ++ (sep2 ++ (port ++ (' ' :: (csrfFlag ++ sep1 ++ tok)))) =
          portFlag ++ sep2 ++ port ++ (' ' :: (csrfFlag ++ sep1 ++ tok)) by simp]
      exact hmb
    rw [hzs]
    exact searchArg_at_match portFlag isDigitChar '-' _ _ rfl port hmb'
  have hTok : searchArg csrfFlag isTokenChar (buildCmd false sep1 tok sep2 port) = some tok := by
    rw [hzs]
    rw [regionFails_skip csrfFlag isTokenChar portFlag (by decide)]
    rw [headFail_skip' csrfFlag isTokenChar '-' _ rfl sep2
      (fun c hc => tok_not_dash_lower (Or.inl (hs2a c hc)))]
    rw [headFail_skip' csrfFlag isTokenChar '-' _ rfl port
      (fun c hc => tok_not_dash_lower (Or.inr (hporta c hc)))]
    rw [show (' ' :: (csrfFlag ++ sep1 ++ tok)) = [' '] ++ (csrfFlag ++ sep1 ++ tok) from rfl]
    rw [headFail_skip' csrfFlag isTokenChar '-' _ rfl [' '] (by decide)]
    have hvs : ∀ c, (tok ++ ([] : List Char)).head? = some c → isSepChar c = false := by
      intro c hc
      rcases tok with _ | ⟨t0, ts⟩
      · exact absurd rfl htok
      · simp only [List.cons_append, List.head?_cons, Option.some.injEq] at hc
        subst hc
        exact tok_not_sep (htoka t0 (List.mem_cons_self t0 ts))
    have hht : ∀ c, ([] : List Char).head? = some c → isTokenChar c = false := by
      intro c hc
      simp at hc
    have hmb := matchArgAt_build csrfFlag isTokenChar sep1 tok [] (by decide)
      hs1 hs1a htok htoka hvs hht
    have hmb' : matchArgAt csrfFlag isTokenChar (csrfFlag ++ (sep1 ++ tok)) = some tok := by
      rw [show csrfFlag ++ (sep1 ++ tok) = csrfFlag ++ sep1 ++ tok ++ [] by simp]
      exact hmb
    rw [show csrfFlag ++ sep1 ++ tok = csrfFlag ++ (sep1 ++ tok) by simp]
    exact searchArg_at_match csrfFlag isTokenChar '-' _ _ rfl tok hmb'
  unfold extractFromCommandLine
  rw [show (String.mk (buildCmd false sep1 tok sep2 port)).data =
      buildCmd false sep1 tok sep2 port from rfl]
  rw [hTok, hPort]

theorem extract_some_has (pid : Nat) (s : String) (info : ProcessInfo)
    (h : extractFromCommandLine pid s = some info) : hasTokenArg s ∧ hasPortArg s := by
  unfold extractFromCommandLine at h
  rcases h1 : searchArg csrfFlag isTokenChar s.data with _ | tok <;>
    rcases h2 : searchArg portFlag isDigitChar s.data with _ | port <;>
      rw [h1, h2] at h <;> dsimp only at h
  · exact absurd h (by simp)
  · exact absurd h (by simp)
  · exact absurd h (by simp)
  · constructor
    · obtain ⟨u, fm, sep, rest, hd, hm, hs, hsa, htne, hta⟩ :=
        searchArg_sound csrfFlag isTokenChar s.data tok h1
      exact ⟨u, fm, sep, tok, rest, hd, hm, hs, hsa, htne, hta⟩
    · obtain ⟨u, fm, sep, rest, hd, hm, hs, hsa, htne, hta⟩ :=
        searchArg_sound portFlag isDigitChar s.data port h2
      exact ⟨u, fm, sep, port, rest, hd, hm, hs, hsa, htne, hta⟩

theorem hasTokenArg_dash {s : String} (h : hasTokenArg s) : '-' ∈ s.data := by
  obtain ⟨u, fm, sep, tk, rest, hdec, hmap, -, -, -, -⟩ := h
  rcases fm with _ | ⟨f0, fs⟩
  · simp [csrfFlag] at hmap
  · have h0 : f0.toLower = '-' := by
      have hh := congrArg List.head? hmap
      simp only [List.map_cons, List.head?_cons] at hh
      rw [show csrfFlag.head? = some '-' from rfl] at hh
      exact Option.some.inj hh
    obtain rfl := toLower_eq_dash h0
    rw [hdec]
    simp

/-- C7: for every command line built from a well-formed CSRF-token argument
(flag, separator run of `=`/whitespace, hex/UUID-like token) and a
well-formed port argument (flag, separator run, digits), in either order,
candidate extraction returns a candidate carrying exactly those two values;
and for every command-line string missing either pattern, extraction returns
no candidate. -/
theorem C7_commandLine :
    (∀ (pid : Nat) (sep1 tok sep2 port : List Char) (tokFirst : Bool),
        sep1 ≠ [] → (∀ c ∈ sep1, isSepChar c = true) →
        sep2 ≠ [] → (∀ c ∈ sep2, isSepChar c = true) →
        tok ≠ [] → (∀ c ∈ tok, isTokenChar c = true) →
        port ≠ [] → (∀ c ∈ port, isDigitChar c = true) →
        extractFromCommandLine pid (String.mk (buildCmd tokFirst sep1 tok sep2 port)) =
          some ⟨pid, digitsToNat port, String.mk tok⟩) ∧
    (∀ (pid : Nat) (s : String), ¬hasTokenArg s ∨ ¬hasPortArg s →
        extractFromCommandLine pid s = none) := by
  constructor
  · intro pid sep1 tok sep2 port tokFirst h1 h2 h3 h4 h5 h6 h7 h8
    cases tokFirst
    · exact extract_build_portFirst pid sep1 tok sep2 port h1 h2 h3 h4 h5 h6 h7 h8
    · exact extract_build_tokFirst pid sep1 tok sep2 port h1 h2 h3 h4 h5 h6 h7 h8
  · intro pid s hmiss
    rcases hx : extractFromCommandLine pid s with _ | info
    · rfl
    · exfalso
      obtain ⟨ht, hp⟩ := extract_some_has pid s info hx
      rcases hmiss with hm | hm
      · exact hm ht
      · exact hm hp

/-- Witness for C7: a concrete command line with `=` and space separators,
and a concrete string containing neither pattern. -/
theorem C7_commandLine_witness :
    extractFromCommandLine 3 (String.mk (buildCmd true ['='] ['a', 'b'] [' '] ['4', '2'])) =
      some ⟨3, digitsToNat ['4', '2'], String.mk ['a', 'b']⟩ ∧
      extractFromCommandLine 3 "hello" = none :=
  ⟨C7_commandLine.1 3 ['='] ['a', 'b'] [' '] ['4', '2'] true (by decide) (by decide) (by decide)
      (by decide) (by decide) (by decide) (by decide) (by decide),
   C7_commandLine.2 3 "hello" (Or.inl (fun h => absurd (hasTokenArg_dash h) (by decide)))⟩
